import Mathlib

/-!
Shallow embedding of the typed-transaction codec of this repository
(ethers-core: types/transaction/signed.rs, types/transaction/eip1559.rs,
types/transaction/signed_request.rs, types/ens.rs).

Bytes are modelled as `Nat` values (kept below 256 by construction of the
encoders; decoders receive arbitrary nats and treat them by the same
comparisons the Rust code performs on `u8`).  Machine integers (`U256`,
`u64`) are modelled as `Nat` with explicit bounds where the width matters.
The `rlp` crate's stream encoder and decoder and the `fastrlp` crate's
header codec are modelled by the functions below, translated from their
sources as used by this repository.
-/

namespace EthersVerify

/-- Fuel-based helper for `beBytes`; the value itself is always enough
fuel since dividing by 256 strictly decreases a positive number. -/
def beBytesAux : Nat → Nat → List Nat
  | 0, _ => []
  | fuel + 1, n => if n = 0 then [] else beBytesAux fuel (n / 256) ++ [n % 256]

/-- Minimal big-endian byte representation of a natural number; 0 gives the
empty sequence (the `to_big_endian` + trim convention of the rlp crate's
unsigned-integer encoder). -/
def beBytes (n : Nat) : List Nat :=
  beBytesAux n n

theorem beBytesAux_irrel (n : Nat) : ∀ fuel fuel', n ≤ fuel → n ≤ fuel' →
    beBytesAux fuel n = beBytesAux fuel' n := by
  induction n using Nat.strong_induction_on with
  | _ n ih =>
    intro fuel fuel' h h'
    match fuel, fuel' with
    | 0, 0 => rfl
    | 0, f' + 1 =>
      have : n = 0 := by omega
      simp [this, beBytesAux]
    | f + 1, 0 =>
      have : n = 0 := by omega
      simp [this, beBytesAux]
    | f + 1, f' + 1 =>
      simp only [beBytesAux]
      by_cases hz : n = 0
      · simp [hz]
      · rw [if_neg hz, if_neg hz]
        have hlt : n / 256 < n :=
          Nat.div_lt_self (Nat.pos_of_ne_zero hz) (by omega)
        rw [ih (n / 256) hlt f f' (by omega) (by omega)]

/-- The defining recurrence of `beBytes`. -/
theorem beBytes_eq (n : Nat) :
    beBytes n = if n = 0 then [] else beBytes (n / 256) ++ [n % 256] := by
  by_cases hz : n = 0
  · simp [hz, beBytes, beBytesAux]
  · rw [if_neg hz]
    obtain ⟨m, rfl⟩ : ∃ m, n = m + 1 := ⟨n - 1, by omega⟩
    show beBytesAux (m + 1) (m + 1) = _
    simp only [beBytesAux, if_neg hz]
    congr 1
    exact beBytesAux_irrel _ _ _ (by omega)
      (Nat.le_refl _)

/-- Big-endian value of a byte sequence (`U256::from_big_endian`). -/
def fromBE (bs : List Nat) : Nat :=
  bs.foldl (fun a b => a * 256 + b) 0

/-- Big-endian representation of `n` left-padded with zero bytes to width
`k` (`to_big_endian` into a fixed-size buffer). -/
def beBytesPad (k n : Nat) : List Nat :=
  List.replicate (k - (beBytes n).length) 0 ++ beBytes n

/-- RLP string header for a payload of length `n` (no header is emitted by
`encStr` itself for a single byte below 0x80). -/
def strHeader (n : Nat) : List Nat :=
  if n ≤ 55 then [0x80 + n] else (0xb7 + (beBytes n).length) :: beBytes n

/-- RLP encoding of a byte string (the rlp crate's `encode_value`). -/
def encStr (p : List Nat) : List Nat :=
  if p.length = 1 ∧ p.headD 0 < 0x80 then p else strHeader p.length ++ p

/-- RLP encoding of an unsigned integer (`U256`/`u64`/`u8` `Encodable`):
minimal big-endian bytes as a string; zero is the empty string. -/
def encUint (n : Nat) : List Nat :=
  encStr (beBytes n)

/-- RLP encoding of a bool (the rlp crate encodes it as the integer 0/1). -/
def encBool (b : Bool) : List Nat :=
  encUint (if b then 1 else 0)

/-- RLP list header for a payload of length `n`. -/
def listHeader (n : Nat) : List Nat :=
  if n ≤ 55 then [0xc0 + n] else (0xf7 + (beBytes n).length) :: beBytes n

/-- RLP encoding of a list given its already-encoded payload
(`RlpStream::begin_list` + items + `out`). -/
def encList (p : List Nat) : List Nat :=
  listHeader p.length ++ p

/-- An RLP stream on which `begin_list items.length` was called followed by
one append per item: header over the concatenated item encodings. -/
def rlpStreamList (items : List (List Nat)) : List Nat :=
  encList items.flatten

/-! ### Data model (signed.rs, ens.rs, eip1559.rs) -/

/-- `TransactionKind` from signed.rs: `Call(Address)` or `Create`.
Addresses (H160) are modelled as their 20-byte big-endian value. -/
inductive TransactionKind where
  | Call (addr : Nat)
  | Create
deriving DecidableEq, Repr

/-- `Signature { r, s, v }`: `r`,`s` are 256-bit integers, `v` a `u64`. -/
structure Signature where
  r : Nat
  s : Nat
  v : Nat
deriving DecidableEq, Repr

/-- `AccessList`: ordered sequence of (address, storage keys) pairs.
Modelled from the spec: eip2930.rs is not under src/; §3 of the spec
describes an `AccessList` as an order-preserving sequence of pairs of a
20-byte address and a sequence of 32-byte storage keys, each pair RLP
encoded as the two-item list [address, [key, ...]]. -/
abbrev AccessList : Type := List (Nat × List Nat)

/-- `LegacyTransaction` (signed.rs): 6 body fields plus the signature. -/
structure LegacyTransaction where
  nonce : Nat
  gas_price : Nat
  gas_limit : Nat
  kind : TransactionKind
  value : Nat
  input : List Nat
  signature : Signature
deriving DecidableEq, Repr

/-- `EIP2930Transaction` (signed.rs). `r`/`s` are stored as H256 values,
modelled by their 32-byte big-endian integer value. -/
structure EIP2930Transaction where
  chain_id : Nat
  nonce : Nat
  gas_price : Nat
  gas_limit : Nat
  kind : TransactionKind
  value : Nat
  input : List Nat
  access_list : AccessList
  odd_y_parity : Bool
  r : Nat
  s : Nat
deriving DecidableEq, Repr

/-- `EIP1559Transaction` (signed.rs). -/
structure EIP1559Transaction where
  chain_id : Nat
  nonce : Nat
  max_priority_fee_per_gas : Nat
  max_fee_per_gas : Nat
  gas_limit : Nat
  kind : TransactionKind
  value : Nat
  input : List Nat
  access_list : AccessList
  odd_y_parity : Bool
  r : Nat
  s : Nat
deriving DecidableEq, Repr

/-- `TypedTransaction` (signed.rs): tagged union of the three variants. -/
inductive TypedTransaction where
  | Legacy (tx : LegacyTransaction)
  | EIP2930 (tx : EIP2930Transaction)
  | EIP1559 (tx : EIP1559Transaction)
deriving DecidableEq, Repr

/-- `NameOrAddress` (ens.rs). -/
inductive NameOrAddress where
  | Name (s : String)
  | Address (addr : Nat)
deriving DecidableEq, Repr

/-- `Eip1559TransactionRequest` (eip1559.rs). -/
structure Eip1559TransactionRequest where
  from_ : Option Nat
  to_ : Option NameOrAddress
  gas : Option Nat
  value : Option Nat
  data : Option (List Nat)
  nonce : Option Nat
  access_list : AccessList
  max_priority_fee_per_gas : Option Nat
  max_fee_per_gas : Option Nat
  chain_id : Option Nat
deriving DecidableEq, Repr

/-- `Eip1559TransactionRequest::new()` = `Default::default()`: every
optional field absent, empty access list. -/
def Eip1559TransactionRequest.new : Eip1559TransactionRequest :=
  { from_ := none, to_ := none, gas := none, value := none, data := none
    nonce := none, access_list := ([] : List (Nat × List Nat))
    max_priority_fee_per_gas := none, max_fee_per_gas := none
    chain_id := none }

/-! ### rlp-crate encoders of the transaction types (signed.rs) -/

/-- Address (H160) rlp encoding: `encode_value` of the full 20 raw bytes. -/
def encAddress (addr : Nat) : List Nat :=
  encStr (beBytesPad 20 addr)

/-- Storage key (H256) rlp encoding: `encode_value` of the 32 raw bytes. -/
def encStorageKey (k : Nat) : List Nat :=
  encStr (beBytesPad 32 k)

/-- `Encodable for TransactionKind` (signed.rs): `Call` writes the 20
address bytes as a string, `Create` writes the empty string. -/
def encKind : TransactionKind → List Nat
  | .Call addr => encAddress addr
  | .Create   => encStr []

/-- One access-list item `{address, storage_keys}` as the derived rlp
encoding: a two-item list. Modelled from the spec (see `AccessList`). -/
def encAccessItem (it : Nat × List Nat) : List Nat :=
  rlpStreamList [encAddress it.1, rlpStreamList (it.2.map encStorageKey)]

/-- `AccessList` rlp encoding: list of the encoded items.
Modelled from the spec (see `AccessList`). -/
def encAccessList (al : AccessList) : List Nat :=
  rlpStreamList (al.map encAccessItem)

/-- The nine item encodings appended by
`Encodable for LegacyTransaction::rlp_append` (signed.rs). -/
def LegacyTransaction.rlpItems (tx : LegacyTransaction) : List (List Nat) :=
  [encUint tx.nonce, encUint tx.gas_price, encUint tx.gas_limit,
   encKind tx.kind, encUint tx.value, encStr tx.input,
   encUint tx.signature.v, encUint tx.signature.r, encUint tx.signature.s]

/-- `rlp::encode` of a `LegacyTransaction`: 9-item list. -/
def LegacyTransaction.rlpEncode (tx : LegacyTransaction) : List Nat :=
  rlpStreamList tx.rlpItems

/-- The eleven item encodings appended by
`Encodable for EIP2930Transaction::rlp_append` (signed.rs). -/
def EIP2930Transaction.rlpItems (tx : EIP2930Transaction) : List (List Nat) :=
  [encUint tx.chain_id, encUint tx.nonce, encUint tx.gas_price,
   encUint tx.gas_limit, encKind tx.kind, encUint tx.value,
   encStr tx.input, encAccessList tx.access_list,
   encBool tx.odd_y_parity, encUint tx.r, encUint tx.s]

/-- `rlp::encode` of an `EIP2930Transaction`: 11-item list. -/
def EIP2930Transaction.rlpEncode (tx : EIP2930Transaction) : List Nat :=
  rlpStreamList tx.rlpItems

/-- The twelve item encodings appended by
`Encodable for EIP1559Transaction::rlp_append` (signed.rs). -/
def EIP1559Transaction.rlpItems (tx : EIP1559Transaction) : List (List Nat) :=
  [encUint tx.chain_id, encUint tx.nonce,
   encUint tx.max_priority_fee_per_gas, encUint tx.max_fee_per_gas,
   encUint tx.gas_limit, encKind tx.kind, encUint tx.value,
   encStr tx.input, encAccessList tx.access_list,
   encBool tx.odd_y_parity, encUint tx.r, encUint tx.s]

/-- `rlp::encode` of an `EIP1559Transaction`: 12-item list. -/
def EIP1559Transaction.rlpEncode (tx : EIP1559Transaction) : List Nat :=
  rlpStreamList tx.rlpItems

/-- `LegacyTransaction::hash` (signed.rs): Keccak-256 of the full rlp
encoding.  Keccak itself is a consumed capability; it is passed as an
explicit function argument. -/
def LegacyTransaction.hash (keccak : List Nat → List Nat)
    (tx : LegacyTransaction) : List Nat :=
  keccak tx.rlpEncode

/-- `EIP2930Transaction::hash` (signed.rs): Keccak-256 of the byte 1
followed by the rlp encoding (the `out` buffer built there). -/
def EIP2930Transaction.hash (keccak : List Nat → List Nat)
    (tx : EIP2930Transaction) : List Nat :=
  keccak (1 :: tx.rlpEncode)

/-- `EIP1559Transaction::hash` (signed.rs): Keccak-256 of the byte 2
followed by the rlp encoding. -/
def EIP1559Transaction.hash (keccak : List Nat → List Nat)
    (tx : EIP1559Transaction) : List Nat :=
  keccak (2 :: tx.rlpEncode)

/-- `LegacyTransaction::chain_id` (signed.rs): derived from the
signature's v. -/
def LegacyTransaction.chain_id (tx : LegacyTransaction) : Option Nat :=
  if tx.signature.v > 36 then some ((tx.signature.v - 35) / 2) else none

/-! ### rlp-crate decoder model

Translated from the rlp crate (`PayloadInfo::from`,
`calculate_payload_info`, `BasicDecoder::payload_info`, `Rlp::data`,
`Rlp::at`/iterator, `BasicDecoder::decode_value`, `decode_usize`) and the
`Decodable` impls the repository relies on. -/

/-- Decoder error kinds of the rlp crate (plus its `Custom` strings). -/
inductive DecErr where
  | RlpIsTooShort
  | RlpIsTooBig
  | RlpExpectedToBeData
  | RlpExpectedToBeList
  | RlpIncorrectListLen
  | RlpInvalidIndirection
  | RlpDataLenWithZeroPrefix
  | RlpInconsistentLengthAndData
  | Custom (msg : String)
deriving DecidableEq, Repr

/-- `rlp::decode_usize`: big-endian usize with no leading zero, at most 8
bytes.  (Call sites never pass an empty slice; the empty case here returns
0, which is unreachable from the functions below.) -/
def decodeUsize (bytes : List Nat) : Except DecErr Nat :=
  if bytes.length ≤ 8 then
    if bytes.headD 1 = 0 then .error .RlpInvalidIndirection
    else .ok (fromBE bytes)
  else .error .RlpIsTooBig

/-- `calculate_payload_info`: long-form header parsing, with the
zero-prefix, truncation and non-canonical (≤ 55) checks. -/
def calculatePayloadInfo (bytes : List Nat) (lenOfLen : Nat) :
    Except DecErr (Nat × Nat) :=
  match bytes.get? 1 with
  | some 0 => .error .RlpDataLenWithZeroPrefix
  | none => .error .RlpIsTooShort
  | some _ =>
    if bytes.length < 1 + lenOfLen then .error .RlpIsTooShort
    else
      match decodeUsize ((bytes.drop 1).take lenOfLen) with
      | .error e => .error e
      | .ok valueLen =>
        if valueLen ≤ 55 then .error .RlpInvalidIndirection
        else .ok (1 + lenOfLen, valueLen)

/-- `PayloadInfo::from`: (header length, payload length) of the item at the
head of the stream. -/
def payloadInfoFrom : List Nat → Except DecErr (Nat × Nat)
  | [] => .error .RlpIsTooShort
  | l :: rest =>
    if l ≤ 0x7f then .ok (0, 1)
    else if l ≤ 0xb7 then .ok (1, l - 0x80)
    else if l ≤ 0xbf then calculatePayloadInfo (l :: rest) (l - 0xb7)
    else if l ≤ 0xf7 then .ok (1, l - 0xc0)
    else calculatePayloadInfo (l :: rest) (l - 0xf7)

/-- `BasicDecoder::payload_info`: `PayloadInfo::from` plus the check that
the whole item fits in the remaining buffer. -/
def basicPayloadInfo (bs : List Nat) : Except DecErr (Nat × Nat) :=
  match payloadInfoFrom bs with
  | .error e => .error e
  | .ok pi =>
    if pi.1 + pi.2 ≤ bs.length then .ok pi else .error .RlpIsTooShort

/-- `Rlp::data` (also `consume_list_payload`): the payload slice of the
item at the head of the stream. -/
def rlpData (bs : List Nat) : Except DecErr (List Nat) :=
  match basicPayloadInfo bs with
  | .error e => .error e
  | .ok pi => .ok ((bs.drop pi.1).take pi.2)

/-- `Rlp::is_list`. -/
def rlpIsList (bs : List Nat) : Bool :=
  !bs.isEmpty && 0xc0 ≤ bs.headD 0

/-- `Rlp::is_data`. -/
def rlpIsData (bs : List Nat) : Bool :=
  !bs.isEmpty && bs.headD 0 < 0xc0

/-- `Rlp::is_empty`. -/
def rlpIsEmpty (bs : List Nat) : Bool :=
  !bs.isEmpty && (bs.headD 0 = 0xc0 || bs.headD 0 = 0x80)

/-- `Rlp::size`. -/
def rlpSize (bs : List Nat) : Nat :=
  if rlpIsData bs then ((basicPayloadInfo bs).toOption.map Prod.snd).getD 0
  else 0

theorem calculatePayloadInfo_headerLen {bs : List Nat} {lol h v : Nat}
    (H : calculatePayloadInfo bs lol = .ok (h, v)) : h = 1 + lol := by
  unfold calculatePayloadInfo at H
  split at H
  · exact absurd H (by simp)
  · exact absurd H (by simp)
  · split at H
    · exact absurd H (by simp)
    · split at H
      · exact absurd H (by simp)
      · split at H
        · exact absurd H (by simp)
        · simp only [Except.ok.injEq, Prod.mk.injEq] at H
          omega

theorem payloadInfoFrom_pos {bs : List Nat} {pi : Nat × Nat}
    (H : payloadInfoFrom bs = .ok pi) : 1 ≤ pi.1 + pi.2 := by
  obtain ⟨h, v⟩ := pi
  match bs with
  | [] => exact absurd H (by simp [payloadInfoFrom])
  | l :: rest =>
    simp only [payloadInfoFrom] at H
    split at H
    · simp only [Except.ok.injEq, Prod.mk.injEq] at H; omega
    · split at H
      · simp only [Except.ok.injEq, Prod.mk.injEq] at H; omega
      · split at H
        · have := calculatePayloadInfo_headerLen H; simp; omega
        · split at H
          · simp only [Except.ok.injEq, Prod.mk.injEq] at H; omega
          · have := calculatePayloadInfo_headerLen H; simp; omega

theorem basicPayloadInfo_ok {bs : List Nat} {pi : Nat × Nat}
    (H : basicPayloadInfo bs = .ok pi) :
    payloadInfoFrom bs = .ok pi ∧ 1 ≤ pi.1 + pi.2 ∧ pi.1 + pi.2 ≤ bs.length := by
  unfold basicPayloadInfo at H
  split at H
  · exact absurd H (by simp)
  · rename_i pi' hp
    split at H
    · cases H
      exact ⟨hp, payloadInfoFrom_pos hp, by assumption⟩
    · exact absurd H (by simp)

/-- The list iterator of the rlp crate, with explicit fuel: every item
consumes at least one byte (`basicPayloadInfo_ok`), so fuel equal to the
buffer length always suffices and the fuel-zero arm is unreachable on a
non-empty remainder. -/
def listItemsF : Nat → List Nat → List (List Nat)
  | 0, _ => []
  | fuel + 1, bs =>
    match basicPayloadInfo bs with
    | .error _ => []
    | .ok pi => bs.take (pi.1 + pi.2) :: listItemsF fuel (bs.drop (pi.1 + pi.2))

/-- Splits a list payload into the maximal prefix of well-formed items,
stopping at the first malformed remainder (`RlpIterator` / `Rlp::at`). -/
def listItems (bs : List Nat) : List (List Nat) :=
  listItemsF bs.length bs

/-- `Rlp::at(i)` restricted to the payload: validate and skip `i` items,
then validate and return the exact slice of item `i`. -/
def rlpAtAux (p : List Nat) (i : Nat) : Except DecErr (List Nat) :=
  match basicPayloadInfo p with
  | .error e => .error e
  | .ok pi =>
    match i with
    | 0 => .ok (p.take (pi.1 + pi.2))
    | i' + 1 => rlpAtAux (p.drop (pi.1 + pi.2)) i'

/-- `Rlp::at(i)` on a full stream. -/
def rlpAt (bs : List Nat) (i : Nat) : Except DecErr (List Nat) :=
  if rlpIsList bs then do
    let payload ← rlpData bs
    rlpAtAux payload i
  else .error .RlpExpectedToBeList

/-- `Rlp::item_count`. -/
def itemCount (bs : List Nat) : Except DecErr Nat :=
  if rlpIsList bs then do
    let payload ← rlpData bs
    pure (listItems payload).length
  else .error .RlpExpectedToBeList

/-- `BasicDecoder::decode_value`: locate the string payload of the item
and feed it to `f`, with the truncation and canonicality checks of the
rlp crate. -/
def decodeValue (bs : List Nat) (f : List Nat → Except DecErr α) :
    Except DecErr α :=
  match bs.head? with
  | none => .error .RlpIsTooShort
  | some l =>
    if l ≤ 0x7f then f [l]
    else if l ≤ 0xb7 then
      if bs.length < 1 + (l - 0x80) then .error .RlpInconsistentLengthAndData
      else
        let d := (bs.drop 1).take (l - 0x80)
        if l = 0x81 ∧ d.headD 0 < 0x80 then .error .RlpInvalidIndirection
        else f d
    else if l ≤ 0xbf then
      let lenOfLen := l - 0xb7
      if bs.length < 1 + lenOfLen then .error .RlpInconsistentLengthAndData
      else do
        let len ← decodeUsize ((bs.drop 1).take lenOfLen)
        if bs.length < 1 + lenOfLen + len then
          .error .RlpInconsistentLengthAndData
        else f ((bs.drop (1 + lenOfLen)).take len)
    else .error .RlpExpectedToBeData

/-- `Decodable for U256` (impl-rlp): no leading zero, at most 32 bytes. -/
def decU256Payload (p : List Nat) : Except DecErr Nat :=
  if p ≠ [] ∧ p.headD 0 = 0 then .error .RlpInvalidIndirection
  else if p.length ≤ 32 then .ok (fromBE p)
  else .error .RlpIsTooBig

def decU256 (bs : List Nat) : Except DecErr Nat :=
  decodeValue bs decU256Payload

/-- `Decodable for u64`/`u8` (rlp crate): empty ⇒ 0, no leading zero, at
most `size` bytes. -/
def decUintPayload (size : Nat) (p : List Nat) : Except DecErr Nat :=
  match p with
  | [] => .ok 0
  | b :: _ =>
    if p.length ≤ size then
      if b = 0 then .error .RlpInvalidIndirection else .ok (fromBE p)
    else .error .RlpIsTooBig

def decU64 (bs : List Nat) : Except DecErr Nat :=
  decodeValue bs (decUintPayload 8)

/-- `Decodable for bool` (rlp crate). -/
def decBoolPayload : List Nat → Except DecErr Bool
  | [] => .ok false
  | [b] => .ok (decide (b ≠ 0))
  | _ => .error .RlpIsTooBig

def decBool (bs : List Nat) : Except DecErr Bool :=
  decodeValue bs decBoolPayload

/-- `Decodable for H160` (impl-rlp): exactly 20 bytes. -/
def decAddressPayload (p : List Nat) : Except DecErr Nat :=
  if p.length < 20 then .error .RlpIsTooShort
  else if 20 < p.length then .error .RlpIsTooBig
  else .ok (fromBE p)

def decAddress (bs : List Nat) : Except DecErr Nat :=
  decodeValue bs decAddressPayload

/-- `Decodable for H256` (impl-rlp): exactly 32 bytes. -/
def decH256Payload (p : List Nat) : Except DecErr Nat :=
  if p.length < 32 then .error .RlpIsTooShort
  else if 32 < p.length then .error .RlpIsTooBig
  else .ok (fromBE p)

def decH256 (bs : List Nat) : Except DecErr Nat :=
  decodeValue bs decH256Payload

/-- `Decodable for Vec<u8>` (rlp crate): the raw payload. -/
def decBytes (bs : List Nat) : Except DecErr (List Nat) :=
  decodeValue bs (fun p => .ok p)

def valAtU256 (bs : List Nat) (i : Nat) : Except DecErr Nat := do
  decU256 (← rlpAt bs i)

def valAtU64 (bs : List Nat) (i : Nat) : Except DecErr Nat := do
  decU64 (← rlpAt bs i)

def valAtBool (bs : List Nat) (i : Nat) : Except DecErr Bool := do
  decBool (← rlpAt bs i)

def valAtBytes (bs : List Nat) (i : Nat) : Except DecErr (List Nat) := do
  decBytes (← rlpAt bs i)

/-- `Decodable for TransactionKind` (signed.rs). -/
def TransactionKind.decode (bs : List Nat) : Except DecErr TransactionKind :=
  if rlpIsEmpty bs then
    if rlpIsData bs then .ok .Create else .error .RlpExpectedToBeData
  else TransactionKind.Call <$> decAddress bs

def valAtKind (bs : List Nat) (i : Nat) : Except DecErr TransactionKind := do
  TransactionKind.decode (← rlpAt bs i)

/-- `Decodable for NameOrAddress` (ens.rs): only 20-byte string data. -/
def NameOrAddress.decodeRlp (bs : List Nat) : Except DecErr NameOrAddress :=
  if ¬ rlpIsData bs then .error .RlpExpectedToBeData
  else if 20 < rlpSize bs then .error .RlpIsTooShort
  else if rlpSize bs < 20 then .error .RlpIsTooBig
  else do
    let d ← rlpData bs
    pure (.Address (fromBE d))

/-- `Rlp::as_list` on an item: the greedy item split of a list payload. -/
def asListItems (bs : List Nat) : Except DecErr (List (List Nat)) :=
  if rlpIsList bs then do
    let payload ← rlpData bs
    pure (listItems payload)
  else .error .RlpExpectedToBeList

/-- One access-list item decoded as the derived two-field struct
(address at 0, storage-key list at 1).  Modelled from the spec (see
`AccessList`). -/
def decAccessItem (it : List Nat) : Except DecErr (Nat × List Nat) := do
  let a ← decAddress (← rlpAt it 0)
  let subItems ← asListItems (← rlpAt it 1)
  let ks ← subItems.mapM decH256
  pure (a, ks)

/-- `AccessList` decoding: list of decoded items.  Modelled from the spec
(see `AccessList`). -/
def decAccessList (bs : List Nat) : Except DecErr AccessList := do
  (← asListItems bs).mapM decAccessItem

def valAtAccessList (bs : List Nat) (i : Nat) : Except DecErr AccessList := do
  decAccessList (← rlpAt bs i)

/-- `Decodable for LegacyTransaction` (signed.rs): exactly 9 items. -/
def LegacyTransaction.decode (bs : List Nat) :
    Except DecErr LegacyTransaction := do
  let cnt ← itemCount bs
  if cnt ≠ 9 then .error .RlpIncorrectListLen
  else do
    let v ← valAtU64 bs 6
    let r ← valAtU256 bs 7
    let s ← valAtU256 bs 8
    let nonce ← valAtU256 bs 0
    let gas_price ← valAtU256 bs 1
    let gas_limit ← valAtU256 bs 2
    let kind ← valAtKind bs 3
    let value ← valAtU256 bs 4
    let input ← valAtBytes bs 5
    pure { nonce, gas_price, gas_limit, kind, value, input,
           signature := { v := v, r := r, s := s } }

/-- `Decodable for EIP2930Transaction` (signed.rs): exactly 11 items. -/
def EIP2930Transaction.decode (bs : List Nat) :
    Except DecErr EIP2930Transaction := do
  let cnt ← itemCount bs
  if cnt ≠ 11 then .error .RlpIncorrectListLen
  else do
    let chain_id ← valAtU64 bs 0
    let nonce ← valAtU256 bs 1
    let gas_price ← valAtU256 bs 2
    let gas_limit ← valAtU256 bs 3
    let kind ← valAtKind bs 4
    let value ← valAtU256 bs 5
    let input ← valAtBytes bs 6
    let access_list ← valAtAccessList bs 7
    let odd_y_parity ← valAtBool bs 8
    let r ← valAtU256 bs 9
    let s ← valAtU256 bs 10
    pure { chain_id, nonce, gas_price, gas_limit, kind, value, input,
           access_list, odd_y_parity, r, s }

/-- `Decodable for EIP1559Transaction` (signed.rs): exactly 12 items. -/
def EIP1559Transaction.decode (bs : List Nat) :
    Except DecErr EIP1559Transaction := do
  let cnt ← itemCount bs
  if cnt ≠ 12 then .error .RlpIncorrectListLen
  else do
    let chain_id ← valAtU64 bs 0
    let nonce ← valAtU256 bs 1
    let max_priority_fee_per_gas ← valAtU256 bs 2
    let max_fee_per_gas ← valAtU256 bs 3
    let gas_limit ← valAtU256 bs 4
    let kind ← valAtKind bs 5
    let value ← valAtU256 bs 6
    let input ← valAtBytes bs 7
    let access_list ← valAtAccessList bs 8
    let odd_y_parity ← valAtBool bs 9
    let r ← valAtU256 bs 10
    let s ← valAtU256 bs 11
    pure { chain_id, nonce, max_priority_fee_per_gas, max_fee_per_gas,
           gas_limit, kind, value, input, access_list, odd_y_parity, r, s }

/-- `Decodable for TypedTransaction` (signed.rs): dispatch on the payload
of the stream and the list bit. -/
def TypedTransaction.decode (bs : List Nat) :
    Except DecErr TypedTransaction := do
  let data ← rlpData bs
  match data.head? with
  | none => .error (.Custom "empty slice")
  | some first =>
    if rlpIsList bs then
      TypedTransaction.Legacy <$> LegacyTransaction.decode bs
    else
      if first = 0x01 then
        TypedTransaction.EIP2930 <$> EIP2930Transaction.decode data.tail
      else if first = 0x02 then
        TypedTransaction.EIP1559 <$> EIP1559Transaction.decode data.tail
      else .error (.Custom "invalid tx type")

/-! ### eip1559.rs: rlp-crate side of `Eip1559TransactionRequest` -/

/-- Modelled from the spec: `rlp_opt` lives in transaction/mod.rs, which is
not under src/.  Per data-model invariant 1 and the use sites in
`rlp_base`, a present value is appended with its own encoding and an
absent one as the empty string. -/
def rlpOpt (enc : α → List Nat) : Option α → List Nat
  | some v => enc v
  | none => encStr []

/-- `Encodable for NameOrAddress` (ens.rs): a `Name` appends nothing, an
`Address` appends the 20-byte string.  (A `Name` thus leaves the Rust
9-item stream unfinished and `RlpStream::out` panics; theorems about
`rlp()` therefore restrict `to` to `None` or an address.) -/
def NameOrAddress.rlpAppendBytes : NameOrAddress → List Nat
  | .Name _ => []
  | .Address a => encAddress a

/-- The nine chunks appended by `Eip1559TransactionRequest::rlp_base`
(eip1559.rs). -/
def Eip1559TransactionRequest.rlpBaseChunks (tx : Eip1559TransactionRequest) :
    List (List Nat) :=
  [rlpOpt encUint tx.chain_id,
   rlpOpt encUint tx.nonce,
   rlpOpt encUint tx.max_priority_fee_per_gas,
   rlpOpt encUint tx.max_fee_per_gas,
   rlpOpt encUint tx.gas,
   rlpOpt NameOrAddress.rlpAppendBytes tx.to_,
   rlpOpt encUint tx.value,
   rlpOpt encStr tx.data,
   encAccessList tx.access_list]

/-- `Eip1559TransactionRequest::rlp` (eip1559.rs): the unsigned
9-item list. -/
def Eip1559TransactionRequest.rlp (tx : Eip1559TransactionRequest) :
    List Nat :=
  rlpStreamList tx.rlpBaseChunks

/-- Modelled from the spec: `decode_to` lives in transaction/mod.rs, not
under src/.  Per §3 invariant 2 and §4.1, the empty string at the offset
decodes as an absent recipient and any other data as a `NameOrAddress`
address value. -/
def decodeTo (bs : List Nat) (i : Nat) :
    Except DecErr (Option NameOrAddress) := do
  let it ← rlpAt bs i
  if rlpIsEmpty it then
    if rlpIsData it then pure none else .error .RlpExpectedToBeData
  else some <$> NameOrAddress.decodeRlp it

/-- `Eip1559TransactionRequest::decode_base_rlp` (eip1559.rs): reads the
nine unsigned fields at offsets 0..8, wrapping each scalar in `Some`;
empty data becomes `None`; `from` stays absent. -/
def Eip1559TransactionRequest.decodeBaseRlp (bs : List Nat) :
    Except DecErr Eip1559TransactionRequest := do
  let chain_id ← valAtU64 bs 0
  let nonce ← valAtU256 bs 1
  let max_priority_fee_per_gas ← valAtU256 bs 2
  let max_fee_per_gas ← valAtU256 bs 3
  let gas ← valAtU256 bs 4
  let to_ ← decodeTo bs 5
  let value ← valAtU256 bs 6
  let dataItem ← rlpAt bs 7
  let d ← rlpData dataItem
  let access_list ← valAtAccessList bs 8
  pure { from_ := none, to_ := to_, gas := some gas, value := some value,
         data := if d.length = 0 then none else some d,
         nonce := some nonce, access_list := access_list,
         max_priority_fee_per_gas := some max_priority_fee_per_gas,
         max_fee_per_gas := some max_fee_per_gas,
         chain_id := some chain_id }

/-! ### fastrlp model (eip1559.rs `impl fastrlp::Decodable / Encodable`,
ens.rs `impl fastrlp::Encodable / Decodable for NameOrAddress`)

`Panicked` marks the places where the Rust code would abort with an
out-of-bounds slice index or an oversized big-endian conversion instead
of returning a decode error. -/

inductive FastErr where
  | InputTooShort
  | NonCanonicalSingleByte
  | NonCanonicalSize
  | UnexpectedList
  | UnexpectedString
  | UnexpectedLength
  | LeadingZero
  | Overflow
  | Custom (msg : String)
  | Panicked (msg : String)
deriving DecidableEq, Repr

/-- fastrlp `static_left_pad::<8>` + `u64::from_be_bytes`. -/
def fastStaticLeftPad8 (d : List Nat) : Except FastErr Nat :=
  if 8 < d.length then .error .Overflow
  else
    match d with
    | [] => .ok 0
    | b :: _ => if b = 0 then .error .LeadingZero else .ok (fromBE d)

/-- fastrlp header: is-list flag and payload length. -/
structure FastHeader where
  list : Bool
  payload_length : Nat
deriving DecidableEq, Repr

/-- fastrlp `Header::decode`: parses the header, advances the buffer, and
checks the payload fits the remainder. -/
def fastHeaderDecode (buf : List Nat) :
    Except FastErr (FastHeader × List Nat) :=
  match buf with
  | [] => .error .InputTooShort
  | b :: rest =>
    let step : Except FastErr (FastHeader × List Nat) :=
      if b < 0x80 then
        .ok ({ list := false, payload_length := 1 }, b :: rest)
      else if b < 0xB8 then
        if b - 0x80 = 1 then
          match rest with
          | [] => .error .InputTooShort
          | c :: _ =>
            if c < 0x80 then .error .NonCanonicalSingleByte
            else .ok ({ list := false, payload_length := 1 }, rest)
        else .ok ({ list := false, payload_length := b - 0x80 }, rest)
      else if b < 0xC0 then
        let lol := b - 0xB7
        if rest.length < lol then .error .InputTooShort
        else
          match fastStaticLeftPad8 (rest.take lol) with
          | .error e => .error e
          | .ok pl =>
            if pl < 56 then .error .NonCanonicalSize
            else .ok ({ list := false, payload_length := pl }, rest.drop lol)
      else if b < 0xF8 then
        .ok ({ list := true, payload_length := b - 0xC0 }, rest)
      else
        let lol := b - 0xF7
        if rest.length < lol then .error .InputTooShort
        else
          match fastStaticLeftPad8 (rest.take lol) with
          | .error e => .error e
          | .ok pl =>
            if pl < 56 then .error .NonCanonicalSize
            else .ok ({ list := true, payload_length := pl }, rest.drop lol)
    match step with
    | .error e => .error e
    | .ok (h, buf2) =>
      if buf2.length < h.payload_length then .error .InputTooShort
      else .ok (h, buf2)

/-- fastrlp `Decodable for bytes::Bytes`: a string payload. -/
def fastBytesDecode (buf : List Nat) :
    Except FastErr (List Nat × List Nat) :=
  match fastHeaderDecode buf with
  | .error e => .error e
  | .ok (h, rest) =>
    if h.list then .error .UnexpectedList
    else .ok (rest.take h.payload_length, rest.drop h.payload_length)

/-- fastrlp `Decodable for H160`: exactly 20 payload bytes. -/
def fastAddressDecode (buf : List Nat) :
    Except FastErr (Nat × List Nat) :=
  match fastHeaderDecode buf with
  | .error e => .error e
  | .ok (h, rest) =>
    if h.list then .error .UnexpectedList
    else if h.payload_length ≠ 20 then .error .UnexpectedLength
    else .ok (fromBE (rest.take 20), rest.drop 20)

/-- fastrlp `Decodable for H256`: exactly 32 payload bytes. -/
def fastH256Decode (buf : List Nat) :
    Except FastErr (Nat × List Nat) :=
  match fastHeaderDecode buf with
  | .error e => .error e
  | .ok (h, rest) =>
    if h.list then .error .UnexpectedList
    else if h.payload_length ≠ 32 then .error .UnexpectedLength
    else .ok (fromBE (rest.take 32), rest.drop 32)

/-- fastrlp `Decodable for NameOrAddress` (ens.rs): always decodes an
address. -/
def fastNOADecode (buf : List Nat) :
    Except FastErr (NameOrAddress × List Nat) :=
  match fastAddressDecode buf with
  | .error e => .error e
  | .ok (a, rest) => .ok (.Address a, rest)

/-- `U64::from(&bytes[..])` (ethereum-types): big-endian value; more than
8 bytes aborts. -/
def u64FromBeSlice (d : List Nat) : Except FastErr Nat :=
  if 8 < d.length then .error (.Panicked "U64 from_big_endian overflow")
  else .ok (fromBE d)

/-- `U256::from(&bytes[..])` (ethereum-types): big-endian value; more than
32 bytes aborts. -/
def u256FromBeSlice (d : List Nat) : Except FastErr Nat :=
  if 32 < d.length then .error (.Panicked "U256 from_big_endian overflow")
  else .ok (fromBE d)

/-- One storage key list decoded with fuel (each step consumes at least
one byte; the fuel is the payload length). Modelled from the spec (the
fastrlp derive of the access-list types lives in eip2930.rs, not under
src/). -/
def fastDecodeKeys : Nat → List Nat → Except FastErr (List Nat)
  | _, [] => .ok []
  | 0, _ :: _ => .error (.Custom "fuel exhausted")
  | fuel + 1, buf =>
    match fastH256Decode buf with
    | .error e => .error e
    | .ok (k, rest) =>
      match fastDecodeKeys fuel rest with
      | .error e => .error e
      | .ok ks => .ok (k :: ks)

/-- One access-list item: a two-field list [address, [keys...]].
Modelled from the spec (see `fastDecodeKeys`). -/
def fastAccessItemDecode (buf : List Nat) :
    Except FastErr ((Nat × List Nat) × List Nat) :=
  match fastHeaderDecode buf with
  | .error e => .error e
  | .ok (h, rest) =>
    if !h.list then .error .UnexpectedString
    else
      match fastAddressDecode (rest.take h.payload_length) with
      | .error e => .error e
      | .ok (a, rest2) =>
        match fastHeaderDecode rest2 with
        | .error e => .error e
        | .ok (hk, rest3) =>
          if !hk.list then .error .UnexpectedString
          else
            match fastDecodeKeys hk.payload_length
                (rest3.take hk.payload_length) with
            | .error e => .error e
            | .ok ks => .ok ((a, ks), rest.drop h.payload_length)

/-- The items of an access list, decoded with fuel. Modelled from the
spec (see `fastDecodeKeys`). -/
def fastDecodeAccessItems : Nat → List Nat → Except FastErr AccessList
  | _, [] => .ok []
  | 0, _ :: _ => .error (.Custom "fuel exhausted")
  | fuel + 1, buf =>
    match fastAccessItemDecode buf with
    | .error e => .error e
    | .ok (it, rest) =>
      match fastDecodeAccessItems fuel rest with
      | .error e => .error e
      | .ok its => .ok (it :: its)

/-- fastrlp `Decodable for AccessList`. Modelled from the spec (see
`fastDecodeKeys`). -/
def fastAccessListDecode (buf : List Nat) :
    Except FastErr (AccessList × List Nat) :=
  match fastHeaderDecode buf with
  | .error e => .error e
  | .ok (h, rest) =>
    if !h.list then .error .UnexpectedString
    else
      match fastDecodeAccessItems h.payload_length
          (rest.take h.payload_length) with
      | .error e => .error e
      | .ok its => .ok (its, rest.drop h.payload_length)

/-- `impl fastrlp::Decodable for Eip1559TransactionRequest` (eip1559.rs):
manually strips the list header (aborting when `1 + len_of_len` exceeds
the buffer — the unchecked `&buf[1 + len_of_len..]` slice), then reads
the nine fields in order.  The `println!` debug statements have no value
effect and are not modelled. -/
def Eip1559TransactionRequest.fastDecode (buf : List Nat) :
    Except FastErr (Eip1559TransactionRequest × List Nat) :=
  match buf with
  | [] => .error (.Custom "Cannot decode a transaction from an empty list")
  | listHeaderByte :: _ =>
    let strip : Except FastErr (List Nat) :=
      if listHeaderByte ≤ 0xf7 then .ok (buf.drop 1)
      else
        let lenOfLen := listHeaderByte - 0xf7
        if 1 + lenOfLen ≤ buf.length then .ok (buf.drop (1 + lenOfLen))
        else .error (.Panicked "slice start index out of range")
    match strip with
    | .error e => .error e
    | .ok b1 => do
      let (cidBytes, b2) ← fastBytesDecode b1
      let chain_id ← u64FromBeSlice cidBytes
      let (nonceBytes, b3) ← fastBytesDecode b2
      let nonce ← u256FromBeSlice nonceBytes
      let (prioBytes, b4) ← fastBytesDecode b3
      let prio ← u256FromBeSlice prioBytes
      let (feeBytes, b5) ← fastBytesDecode b4
      let fee ← u256FromBeSlice feeBytes
      let (gasBytes, b6) ← fastBytesDecode b5
      let gas ← u256FromBeSlice gasBytes
      let (to_, b7) ←
        match b6 with
        | [] =>
          .error (.Custom "cannot decode an address from an empty list")
        | first :: _ =>
          if first = 0x80 then pure (none, b6.drop 1)
          else
            match fastNOADecode b6 with
            | .error e => .error e
            | .ok (a, r) => pure (some a, r)
      let (valueBytes, b8) ← fastBytesDecode b7
      let value ← u256FromBeSlice valueBytes
      let (dataBytes, b9) ← fastBytesDecode b8
      let data := if dataBytes.length = 0 then none else some dataBytes
      let (access_list, b10) ← fastAccessListDecode b9
      pure ({ from_ := none, to_ := to_, gas := some gas,
              value := some value, data := data, nonce := some nonce,
              access_list := access_list,
              max_priority_fee_per_gas := some prio,
              max_fee_per_gas := some fee,
              chain_id := some chain_id }, b10)

/-! fastrlp encoder side (eip1559.rs `impl fastrlp::Encodable`). -/

/-- Fuel-based helper for `bitLen`; the value itself is enough fuel. -/
def bitLenAux : Nat → Nat → Nat
  | 0, _ => 0
  | fuel + 1, n => if n = 0 then 0 else bitLenAux fuel (n / 2) + 1

/-- Bit length of a value (`U256::bits`, and `64 - leading_zeros` for
`u64`): 0 for 0, and the index of the highest set bit plus one
otherwise. -/
def bitLen (n : Nat) : Nat :=
  bitLenAux n n

/-- fastrlp `length_of_length` for a usize payload length. -/
def lengthOfLength (n : Nat) : Nat :=
  if n < 56 then 1 else 8 - (64 - bitLen n) / 8

/-- fastrlp `Encodable for u64::length`. -/
def fastU64Length (v : Nat) : Nat :=
  if v < 0x80 then 1 else 1 + (8 - (64 - bitLen v) / 8)

/-- `uint_container[31 - value.bits() / 8..]` (eip1559.rs `encode`): the
hand-rolled scalar slice taken from the 32-byte big-endian buffer. -/
def fastScalarSlice (v : Nat) : List Nat :=
  (beBytesPad 32 v).drop (31 - bitLen v / 8)

/-- The bytes the fastrlp encoder emits for one `U256` scalar field:
the hand-rolled slice, string-encoded. -/
def fastScalarField (v : Nat) : List Nat :=
  encStr (fastScalarSlice v)

/-- `fastrlp::Encodable for NameOrAddress::length` (ens.rs). -/
def NameOrAddress.fastLength : NameOrAddress → Nat
  | .Name _ => 0
  | .Address a => if a = 0 then 1 else 21

/-- `fastrlp::Encodable for NameOrAddress::encode` (ens.rs): the zero
address is written as the empty string 0x80. -/
def NameOrAddress.fastEncode : NameOrAddress → List Nat
  | .Name _ => []
  | .Address a => if a = 0 then [0x80] else encStr (beBytesPad 20 a)

/-- fastrlp `Encodable for [u8]::length`. -/
def fastBytesLength (d : List Nat) : Nat :=
  if d.length = 1 ∧ d.headD 0 < 0x80 then 1
  else d.length + lengthOfLength d.length

/-- `<Eip1559TransactionRequest as fastrlp::Encodable>::length`
(eip1559.rs): the hand-rolled payload-length computation, including its
`< 0x7f` header test and `leading_zeros / 8` byte counts. -/
def Eip1559TransactionRequest.fastLength (tx : Eip1559TransactionRequest) :
    Nat :=
  let scalarLen : Nat → Nat := fun v => 32 - (256 - bitLen v) / 8
  let scalarHdr : Nat → Nat := fun v => if v < 0x7f then 0 else 1
  fastU64Length (tx.chain_id.getD 1)
    + scalarLen (tx.nonce.getD 0)
    + scalarLen (tx.max_priority_fee_per_gas.getD 0)
    + scalarLen (tx.max_fee_per_gas.getD 0)
    + scalarLen (tx.gas.getD 0)
    + (tx.to_.getD (.Address 0)).fastLength
    + scalarLen (tx.value.getD 0)
    + fastBytesLength (tx.data.getD [])
    + (encAccessList tx.access_list).length
    + (scalarHdr (tx.nonce.getD 0)
        + scalarHdr (tx.max_priority_fee_per_gas.getD 0)
        + scalarHdr (tx.max_fee_per_gas.getD 0)
        + scalarHdr (tx.gas.getD 0)
        + scalarHdr (tx.value.getD 0))

/-- The field bytes emitted by
`<Eip1559TransactionRequest as fastrlp::Encodable>::encode` after the
list header (eip1559.rs). -/
def Eip1559TransactionRequest.fastPayload (tx : Eip1559TransactionRequest) :
    List Nat :=
  encUint (tx.chain_id.getD 1)
    ++ fastScalarField (tx.nonce.getD 0)
    ++ fastScalarField (tx.max_priority_fee_per_gas.getD 0)
    ++ fastScalarField (tx.max_fee_per_gas.getD 0)
    ++ fastScalarField (tx.gas.getD 0)
    ++ (tx.to_.getD (.Address 0)).fastEncode
    ++ fastScalarField (tx.value.getD 0)
    ++ encStr (tx.data.getD [])
    ++ encAccessList tx.access_list

/-- The header bytes emitted by the fastrlp encoder (eip1559.rs): for a
payload over 55 bytes it writes `put_uint(encoding_len, len_of_len)` and
only then the `0xf7 + len_of_len` byte. -/
def Eip1559TransactionRequest.fastHeaderBytes
    (tx : Eip1559TransactionRequest) : List Nat :=
  let el := tx.fastLength
  if el ≤ 55 then [0xc0 + el]
  else beBytesPad (lengthOfLength el) el ++ [0xf7 + lengthOfLength el]

/-- `<Eip1559TransactionRequest as fastrlp::Encodable>::encode`
(eip1559.rs). -/
def Eip1559TransactionRequest.fastEncode (tx : Eip1559TransactionRequest) :
    List Nat :=
  tx.fastHeaderBytes ++ tx.fastPayload

/-- Decidable equality on decoder results, used by concrete evaluations. -/
instance {ε α : Type} [DecidableEq ε] [DecidableEq α] :
    DecidableEq (Except ε α) := fun a b =>
  match a, b with
  | .error e, .error f =>
    if h : e = f then .isTrue (by rw [h]) else .isFalse (by simp [h])
  | .error _, .ok _ => .isFalse (by simp)
  | .ok _, .error _ => .isFalse (by simp)
  | .ok x, .ok y =>
    if h : x = y then .isTrue (by rw [h]) else .isFalse (by simp [h])

/-! ### Arithmetic facts about the byte codec -/

theorem fromBE_nil : fromBE [] = 0 := rfl

theorem fromBE_foldl (t : List Nat) : ∀ c : Nat,
    t.foldl (fun a b => a * 256 + b) c = c * 256 ^ t.length + fromBE t := by
  induction t with
  | nil => intro c; simp [fromBE]
  | cons y u ih =>
    intro c
    show List.foldl _ (c * 256 + y) u = _
    rw [ih (c * 256 + y)]
    have hy : fromBE (y :: u) = y * 256 ^ u.length + fromBE u := by
      show List.foldl _ (0 * 256 + y) u = _
      rw [ih (0 * 256 + y)]
      ring_nf
    rw [hy, List.length_cons]
    ring

theorem fromBE_cons (x : Nat) (t : List Nat) :
    fromBE (x :: t) = fromBE t + x * 256 ^ t.length := by
  show List.foldl _ (0 * 256 + x) t = _
  rw [fromBE_foldl t (0 * 256 + x)]
  ring

theorem fromBE_append_single (xs : List Nat) (y : Nat) :
    fromBE (xs ++ [y]) = fromBE xs * 256 + y := by
  simp only [fromBE, List.foldl_append, List.foldl]

theorem fromBE_beBytes (n : Nat) : fromBE (beBytes n) = n := by
  induction n using Nat.strong_induction_on with
  | _ n ih =>
    rw [beBytes_eq]
    by_cases h : n = 0
    · simp [h, fromBE]
    · rw [if_neg h, fromBE_append_single,
        ih (n / 256) (Nat.div_lt_self (Nat.pos_of_ne_zero h) (by omega))]
      omega

theorem beBytes_lt (n : Nat) : n < 256 ^ (beBytes n).length := by
  induction n using Nat.strong_induction_on with
  | _ n ih =>
    rw [beBytes_eq]
    by_cases h : n = 0
    · simp [h]
    · rw [if_neg h]
      have hd := ih (n / 256) (Nat.div_lt_self (Nat.pos_of_ne_zero h) (by omega))
      simp only [List.length_append, List.length_cons, List.length_nil]
      rw [pow_succ]
      have h1 : n / 256 + 1 ≤ 256 ^ (beBytes (n / 256)).length := hd
      have h2 : n < 256 * (n / 256 + 1) := by omega
      calc n < 256 * (n / 256 + 1) := h2
        _ ≤ 256 * 256 ^ (beBytes (n / 256)).length :=
            Nat.mul_le_mul_left 256 h1
        _ = 256 ^ (beBytes (n / 256)).length * 256 := by ring

theorem beBytes_head {n : Nat} (h : n ≠ 0) :
    ∃ b t, beBytes n = b :: t ∧ b ≠ 0 := by
  induction n using Nat.strong_induction_on with
  | _ n ih =>
    rw [beBytes_eq, if_neg h]
    by_cases hq : n / 256 = 0
    · refine ⟨n % 256, [], ?_, ?_⟩
      · simp [hq, beBytes, beBytesAux]
      · omega
    · have hlt : n / 256 < n := Nat.div_lt_self (Nat.pos_of_ne_zero h) (by omega)
      obtain ⟨b, t, hbt, hb⟩ := ih (n / 256) hlt hq
      exact ⟨b, t ++ [n % 256], by rw [hbt]; simp, hb⟩

theorem beBytes_ne_nil {n : Nat} (h : n ≠ 0) : beBytes n ≠ [] := by
  obtain ⟨b, t, hbt, -⟩ := beBytes_head h
  simp [hbt]

theorem beBytes_length_pos {n : Nat} (h : n ≠ 0) :
    1 ≤ (beBytes n).length := by
  have hne := beBytes_ne_nil h
  cases hb : beBytes n with
  | nil => exact absurd hb hne
  | cons x t => simp

theorem beBytes_pow_le {n : Nat} (h : n ≠ 0) :
    256 ^ ((beBytes n).length - 1) ≤ n := by
  induction n using Nat.strong_induction_on with
  | _ n ih =>
    rw [beBytes_eq, if_neg h]
    by_cases hq : n / 256 = 0
    · simp [hq, beBytes, beBytesAux]
      omega
    · have hlt : n / 256 < n := Nat.div_lt_self (Nat.pos_of_ne_zero h) (by omega)
      have hd := ih (n / 256) hlt hq
      have hlen := beBytes_length_pos hq
      have hL : (beBytes (n / 256) ++ [n % 256]).length - 1
          = (beBytes (n / 256)).length := by
        simp
      rw [hL]
      have heq : (beBytes (n / 256)).length
          = ((beBytes (n / 256)).length - 1) + 1 := by omega
      calc (256 : Nat) ^ (beBytes (n / 256)).length
          = 256 ^ (((beBytes (n / 256)).length - 1) + 1) := by rw [← heq]
        _ = 256 ^ ((beBytes (n / 256)).length - 1) * 256 := by rw [pow_succ]
        _ ≤ (n / 256) * 256 := Nat.mul_le_mul_right 256 hd
        _ ≤ n := by omega

theorem beBytes_length_le {n k : Nat} (h : n < 256 ^ k) :
    (beBytes n).length ≤ k := by
  by_cases hz : n = 0
  · subst hz; simp [beBytes, beBytesAux]
  · by_contra hc
    have h1 : k ≤ (beBytes n).length - 1 := by omega
    have h2 : (256 : Nat) ^ k ≤ 256 ^ ((beBytes n).length - 1) :=
      Nat.pow_le_pow_right (by omega) h1
    have h3 := beBytes_pow_le hz
    omega

theorem beBytes_mem_lt {n : Nat} : ∀ b ∈ beBytes n, b < 256 := by
  induction n using Nat.strong_induction_on with
  | _ n ih =>
    rw [beBytes_eq]
    by_cases h : n = 0
    · simp [h]
    · rw [if_neg h]
      intro b hb
      rcases List.mem_append.mp hb with h1 | h2
      · exact ih (n / 256) (Nat.div_lt_self (Nat.pos_of_ne_zero h) (by omega)) b h1
      · simp at h2
        omega

theorem fromBE_replicate_zero (k : Nat) (bs : List Nat) :
    fromBE (List.replicate k 0 ++ bs) = fromBE bs := by
  induction k with
  | zero => simp
  | succ m ih =>
    rw [List.replicate_succ, List.cons_append, fromBE_cons, ih]
    simp

theorem fromBE_beBytesPad (k n : Nat) : fromBE (beBytesPad k n) = n := by
  rw [beBytesPad, fromBE_replicate_zero, fromBE_beBytes]

theorem beBytesPad_length {k n : Nat} (h : (beBytes n).length ≤ k) :
    (beBytesPad k n).length = k := by
  simp [beBytesPad]
  omega

/-! ### Structural facts about encoded items -/

/-- A byte sequence that is exactly one well-formed RLP item. -/
def IsRlpItem (it : List Nat) : Prop :=
  ∃ pi : Nat × Nat, payloadInfoFrom it = .ok pi ∧ pi.1 + pi.2 = it.length

theorem pow_256_8 : (256 : Nat) ^ 8 = 2 ^ 64 := by norm_num

theorem calculatePayloadInfo_encoded (n : Nat) (lByte : Nat) (p : List Nat)
    (hn55 : 55 < n) (hn : n < 2 ^ 64) (hp : p.length = n) :
    calculatePayloadInfo (lByte :: (beBytes n ++ p)) (beBytes n).length
      = .ok (1 + (beBytes n).length, n) := by
  have hnz : n ≠ 0 := by omega
  obtain ⟨b, t, hbt, hb0⟩ := beBytes_head hnz
  have hlol_le : (beBytes n).length ≤ 8 :=
    beBytes_length_le (by rw [pow_256_8]; exact hn)
  have hg : (lByte :: (beBytes n ++ p)).get? 1 = some b := by
    rw [hbt]
    rfl
  unfold calculatePayloadInfo
  rw [hg]
  obtain ⟨b', rfl⟩ : ∃ b', b = b' + 1 := ⟨b - 1, by omega⟩
  simp only []
  rw [if_neg (by
    simp only [List.length_cons, List.length_append, hp]
    omega)]
  have hdrop : (lByte :: (beBytes n ++ p)).drop 1 = beBytes n ++ p := rfl
  have htake : ((beBytes n ++ p).take (beBytes n).length) = beBytes n := by
    rw [List.take_append_of_le_length (Nat.le_refl _), List.take_length]
  rw [hdrop, htake]
  have hdu : decodeUsize (beBytes n) = .ok n := by
    unfold decodeUsize
    rw [if_pos hlol_le, if_neg (by rw [hbt]; simp), fromBE_beBytes]
  rw [hdu]
  simp only []
  rw [if_neg (by omega)]

theorem encStr_split (p : List Nat) (hlen : p.length < 2 ^ 64) :
    ∃ hd : List Nat, encStr p = hd ++ p ∧
      payloadInfoFrom (encStr p) = .ok (hd.length, p.length) := by
  by_cases hc : p.length = 1 ∧ p.headD 0 < 0x80
  · obtain ⟨b, rfl⟩ : ∃ b, p = [b] := by
      match p, hc.1 with
      | [b], _ => exact ⟨b, rfl⟩
    have hb : b < 0x80 := by simpa using hc.2
    refine ⟨[], ?_, ?_⟩
    · simp [encStr, hb]
    · rw [encStr, if_pos hc]
      have hb2 : b ≤ 127 := by omega
      simp [payloadInfoFrom, hb2]
  · rw [encStr, if_neg hc]
    by_cases hle : p.length ≤ 55
    · refine ⟨[0x80 + p.length], ?_, ?_⟩
      · simp [strHeader, hle]
      · rw [strHeader, if_pos hle]
        show payloadInfoFrom ((0x80 + p.length) :: p) = _
        simp only [payloadInfoFrom]
        rw [if_neg (by omega), if_pos (by omega)]
        simp
    · have hnz : p.length ≠ 0 := by omega
      have hlol_le : (beBytes p.length).length ≤ 8 :=
        beBytes_length_le (by rw [pow_256_8]; exact hlen)
      have hlol_pos : 1 ≤ (beBytes p.length).length := beBytes_length_pos hnz
      refine ⟨(0xb7 + (beBytes p.length).length) :: beBytes p.length, ?_, ?_⟩
      · simp [strHeader, hle]
      · rw [strHeader, if_neg hle]
        rw [List.cons_append]
        simp only [payloadInfoFrom]
        rw [if_neg (by omega), if_neg (by omega), if_pos (by omega)]
        have : 0xb7 + (beBytes p.length).length - 0xb7
            = (beBytes p.length).length := by omega
        rw [this, calculatePayloadInfo_encoded p.length _ p (by omega) hlen rfl]
        simp only [List.length_cons, Except.ok.injEq, Prod.mk.injEq]
        exact ⟨by omega, by trivial⟩

theorem encList_split (p : List Nat) (hlen : p.length < 2 ^ 64) :
    ∃ hd : List Nat, encList p = hd ++ p ∧
      payloadInfoFrom (encList p) = .ok (hd.length, p.length) := by
  rw [encList]
  by_cases hle : p.length ≤ 55
  · refine ⟨[0xc0 + p.length], ?_, ?_⟩
    · simp [listHeader, hle]
    · rw [listHeader, if_pos hle]
      show payloadInfoFrom ((0xc0 + p.length) :: p) = _
      simp only [payloadInfoFrom]
      rw [if_neg (by omega), if_neg (by omega), if_neg (by omega),
        if_pos (by omega)]
      simp
  · have hnz : p.length ≠ 0 := by omega
    have hlol_le : (beBytes p.length).length ≤ 8 :=
      beBytes_length_le (by rw [pow_256_8]; exact hlen)
    have hlol_pos : 1 ≤ (beBytes p.length).length := beBytes_length_pos hnz
    refine ⟨(0xf7 + (beBytes p.length).length) :: beBytes p.length, ?_, ?_⟩
    · simp [listHeader, hle]
    · rw [listHeader, if_neg hle]
      rw [List.cons_append]
      simp only [payloadInfoFrom]
      rw [if_neg (by omega), if_neg (by omega), if_neg (by omega),
        if_neg (by omega)]
      have : 0xf7 + (beBytes p.length).length - 0xf7
          = (beBytes p.length).length := by omega
      rw [this, calculatePayloadInfo_encoded p.length _ p (by omega) hlen rfl]
      simp only [List.length_cons, Except.ok.injEq, Prod.mk.injEq]
      exact ⟨by omega, by trivial⟩

theorem encStr_isItem (p : List Nat) (hlen : p.length < 2 ^ 64) :
    IsRlpItem (encStr p) := by
  obtain ⟨hd, he, hpi⟩ := encStr_split p hlen
  exact ⟨(hd.length, p.length), hpi, by rw [he]; simp⟩

theorem encList_isItem (p : List Nat) (hlen : p.length < 2 ^ 64) :
    IsRlpItem (encList p) := by
  obtain ⟨hd, he, hpi⟩ := encList_split p hlen
  exact ⟨(hd.length, p.length), hpi, by rw [he]; simp⟩

theorem basicPayloadInfo_of_item {it : List Nat} {pi : Nat × Nat}
    (hpi : payloadInfoFrom it = .ok pi) (hext : pi.1 + pi.2 = it.length) :
    basicPayloadInfo it = .ok pi := by
  unfold basicPayloadInfo
  rw [hpi]
  exact if_pos (by omega)

theorem calculatePayloadInfo_append {l : Nat} {t rest : List Nat}
    {lol : Nat} {pi : Nat × Nat}
    (H : calculatePayloadInfo (l :: t) lol = .ok pi) :
    calculatePayloadInfo (l :: (t ++ rest)) lol = .ok pi := by
  cases t with
  | nil =>
    exact absurd H (by simp [calculatePayloadInfo])
  | cons x u =>
    unfold calculatePayloadInfo at H ⊢
    have hg1 : (l :: x :: u).get? 1 = some x := rfl
    have hg2 : (l :: (x :: u ++ rest)).get? 1 = some x := rfl
    rw [hg1] at H
    rw [hg2]
    by_cases hx : x = 0
    · subst hx
      exact absurd H (by simp)
    · obtain ⟨y, rfl⟩ : ∃ y, x = y + 1 := ⟨x - 1, by omega⟩
      simp only [] at H ⊢
      split at H
      · exact absurd H (by simp)
      · rename_i hbound
        rw [if_neg (by
          simp only [List.length_cons, List.length_append] at hbound ⊢
          omega)]
        have hlolle : lol ≤ ((y + 1) :: u).length := by
          simp only [List.length_cons] at hbound ⊢
          omega
        have hdrop1 : (l :: (((y + 1) :: u) ++ rest)).drop 1
            = ((y + 1) :: u) ++ rest := rfl
        have hdrop2 : (l :: (y + 1) :: u).drop 1 = (y + 1) :: u := rfl
        rw [hdrop2] at H
        rw [hdrop1, List.take_append_of_le_length hlolle]
        exact H

theorem payloadInfoFrom_append {it rest : List Nat} {pi : Nat × Nat}
    (H : payloadInfoFrom it = .ok pi) :
    payloadInfoFrom (it ++ rest) = .ok pi := by
  match it with
  | [] => exact absurd H (by simp [payloadInfoFrom])
  | l :: t =>
    rw [List.cons_append]
    simp only [payloadInfoFrom] at H ⊢
    split_ifs at H ⊢ <;>
      first
        | exact H
        | exact calculatePayloadInfo_append H

theorem basicPayloadInfo_append {it rest : List Nat} {pi : Nat × Nat}
    (hpi : payloadInfoFrom it = .ok pi) (hext : pi.1 + pi.2 = it.length) :
    basicPayloadInfo (it ++ rest) = .ok pi := by
  unfold basicPayloadInfo
  rw [payloadInfoFrom_append hpi]
  exact if_pos (by simp only [List.length_append]; omega)

theorem listItemsF_nil (fuel : Nat) : listItemsF fuel [] = [] := by
  cases fuel with
  | zero => rfl
  | succ f =>
    simp [listItemsF, basicPayloadInfo, payloadInfoFrom]

theorem listItemsF_flatten (its : List (List Nat)) (fuel : Nat)
    (hf : its.flatten.length ≤ fuel) (H : ∀ it ∈ its, IsRlpItem it) :
    listItemsF fuel its.flatten = its := by
  induction its generalizing fuel with
  | nil => simpa using listItemsF_nil fuel
  | cons it rest ih =>
    obtain ⟨pi, hpi, hext⟩ := H it (by simp)
    have hpos := payloadInfoFrom_pos hpi
    have hlen1 : 1 ≤ it.length := by omega
    have hflen : (it :: rest).flatten.length
        = it.length + rest.flatten.length := by simp
    cases fuel with
    | zero =>
      rw [hflen] at hf
      omega
    | succ f =>
      have hfl : (it :: rest).flatten = it ++ rest.flatten := by simp
      rw [hfl]
      simp only [listItemsF]
      rw [basicPayloadInfo_append hpi hext]
      simp only [hext]
      rw [List.take_left, List.drop_left]
      congr 1
      refine ih f ?_ (fun x hx => H x (by simp [hx]))
      rw [hflen] at hf
      omega

theorem listItems_flatten (its : List (List Nat))
    (H : ∀ it ∈ its, IsRlpItem it) :
    listItems its.flatten = its :=
  listItemsF_flatten its _ (Nat.le_refl _) H

theorem rlpAtAux_flatten (its : List (List Nat))
    (H : ∀ it ∈ its, IsRlpItem it) (i : Nat) (hi : i < its.length) :
    rlpAtAux its.flatten i = .ok (its.get ⟨i, hi⟩) := by
  induction its generalizing i with
  | nil => simp at hi
  | cons it rest ih =>
    obtain ⟨pi, hpi, hext⟩ := H it (by simp)
    have hfl : (it :: rest).flatten = it ++ rest.flatten := by simp
    rw [hfl]
    unfold rlpAtAux
    rw [basicPayloadInfo_append hpi hext]
    cases i with
    | zero =>
      simp only [hext]
      rw [List.take_left]
      rfl
    | succ j =>
      simp only [hext]
      rw [List.drop_left]
      exact ih (fun x hx => H x (by simp [hx])) j (by simpa using hi)

theorem rlpIsList_encList (p : List Nat) : rlpIsList (encList p) = true := by
  rw [encList, listHeader]
  by_cases h : p.length ≤ 55
  · rw [if_pos h]
    simp [rlpIsList]
  · rw [if_neg h]
    simp [rlpIsList]
    omega

theorem rlpData_of_split {e hd p : List Nat}
    (he : e = hd ++ p)
    (hpi : payloadInfoFrom e = .ok (hd.length, p.length)) :
    rlpData e = .ok p := by
  unfold rlpData
  rw [basicPayloadInfo_of_item hpi (by rw [he]; simp)]
  simp only []
  rw [he, List.drop_left, List.take_length]

theorem rlpData_encStr (p : List Nat) (hlen : p.length < 2 ^ 64) :
    rlpData (encStr p) = .ok p := by
  obtain ⟨hd, he, hpi⟩ := encStr_split p hlen
  exact rlpData_of_split he hpi

theorem rlpData_encList (p : List Nat) (hlen : p.length < 2 ^ 64) :
    rlpData (encList p) = .ok p := by
  obtain ⟨hd, he, hpi⟩ := encList_split p hlen
  exact rlpData_of_split he hpi

theorem rlpAt_stream (its : List (List Nat))
    (hlen : its.flatten.length < 2 ^ 64)
    (H : ∀ it ∈ its, IsRlpItem it) (i : Nat) (hi : i < its.length) :
    rlpAt (rlpStreamList its) i = .ok (its.get ⟨i, hi⟩) := by
  rw [rlpStreamList, rlpAt, if_pos (rlpIsList_encList _)]
  rw [rlpData_encList _ hlen]
  exact rlpAtAux_flatten its H i hi

theorem itemCount_stream (its : List (List Nat))
    (hlen : its.flatten.length < 2 ^ 64)
    (H : ∀ it ∈ its, IsRlpItem it) :
    itemCount (rlpStreamList its) = .ok its.length := by
  rw [rlpStreamList, itemCount, if_pos (rlpIsList_encList _)]
  rw [rlpData_encList _ hlen]
  show Except.ok (listItems its.flatten).length = _
  rw [listItems_flatten its H]

theorem decodeUsize_beBytes {n : Nat} (hn : n ≠ 0)
    (h8 : (beBytes n).length ≤ 8) : decodeUsize (beBytes n) = .ok n := by
  obtain ⟨b, t, hbt, hb0⟩ := beBytes_head hn
  unfold decodeUsize
  rw [if_pos h8, if_neg (by rw [hbt]; simpa using hb0), fromBE_beBytes]

theorem exceptBind_ok {e a b : Type} (x : a) (f : a → Except e b) :
    (Except.ok x >>= f) = f x := rfl

theorem exceptBind_error {e a b : Type} (err : e) (f : a → Except e b) :
    ((Except.error err : Except e a) >>= f) = .error err := rfl

theorem decodeValue_encStr {α : Type} (p : List Nat)
    (hlen : p.length < 2 ^ 64) (f : List Nat → Except DecErr α) :
    decodeValue (encStr p) f = f p := by
  by_cases hc : p.length = 1 ∧ p.headD 0 < 0x80
  · obtain ⟨b, rfl⟩ : ∃ b, p = [b] := by
      match p, hc.1 with
      | [b], _ => exact ⟨b, rfl⟩
    have hb : b < 0x80 := by simpa using hc.2
    rw [encStr, if_pos hc]
    simp only [decodeValue, List.head?]
    rw [if_pos (by omega)]
  · rw [encStr, if_neg hc]
    by_cases hle : p.length ≤ 55
    · rw [strHeader, if_pos hle]
      show decodeValue ((0x80 + p.length) :: p) f = f p
      simp only [decodeValue, List.head?]
      rw [if_neg (by omega), if_pos (by omega)]
      rw [if_neg (by simp only [List.length_cons]; omega)]
      have hd : (((0x80 + p.length) :: p).drop 1).take (0x80 + p.length - 0x80)
          = p := by simp
      rw [if_neg ?canon]
      case canon =>
        rintro ⟨h81, hdlt⟩
        rw [hd] at hdlt
        exact hc ⟨by omega, hdlt⟩
      rw [hd]
    · have hnz : p.length ≠ 0 := by omega
      have hlol_le : (beBytes p.length).length ≤ 8 :=
        beBytes_length_le (by rw [pow_256_8]; exact hlen)
      have hlol_pos : 1 ≤ (beBytes p.length).length := beBytes_length_pos hnz
      rw [strHeader, if_neg hle, List.cons_append]
      simp only [decodeValue, List.head?]
      rw [if_neg (by omega), if_neg (by omega), if_pos (by omega)]
      rw [if_neg (by
        simp only [List.length_cons, List.length_append]
        omega)]
      have hdrop : ((0xb7 + (beBytes p.length).length) ::
          (beBytes p.length ++ p)).drop 1 = beBytes p.length ++ p := rfl
      have hndx : 0xb7 + (beBytes p.length).length - 0xb7
          = (beBytes p.length).length := by omega
      rw [hdrop, hndx, List.take_append_of_le_length (Nat.le_refl _),
        List.take_length, decodeUsize_beBytes hnz hlol_le, exceptBind_ok]
      rw [if_neg (by
        simp only [List.length_cons, List.length_append]
        omega)]
      have hdropL : ((0xb7 + (beBytes p.length).length) ::
          (beBytes p.length ++ p)).drop (1 + (beBytes p.length).length)
          = p := by
        rw [Nat.add_comm 1 _, List.drop_succ_cons]
        exact List.drop_left _ _
      rw [hdropL, List.take_length]

/-! ### Value decoders applied to the matching encoders -/

theorem pow_256_32 : (256 : Nat) ^ 32 = 2 ^ 256 := by norm_num

theorem pow_256_20 : (256 : Nat) ^ 20 = 2 ^ 160 := by norm_num

theorem exceptMap_ok {e a b : Type} (f : a → b) (x : a) :
    (f <$> (Except.ok x : Except e a)) = .ok (f x) := rfl

theorem decU256_encUint {n : Nat} (hn : n < 2 ^ 256) :
    decU256 (encUint n) = .ok n := by
  have hle32 : (beBytes n).length ≤ 32 := beBytes_length_le (pow_256_32 ▸ hn)
  rw [encUint, decU256, decodeValue_encStr _ (by omega)]
  unfold decU256Payload
  by_cases hz : n = 0
  · subst hz
    simp [beBytes, beBytesAux, fromBE]
  · obtain ⟨b, t, hbt, hb0⟩ := beBytes_head hz
    rw [if_neg (by rw [hbt]; simp [hb0]), if_pos hle32, fromBE_beBytes]

theorem decU64_encUint {n : Nat} (hn : n < 2 ^ 64) :
    decU64 (encUint n) = .ok n := by
  have hle8 : (beBytes n).length ≤ 8 := beBytes_length_le (pow_256_8 ▸ hn)
  rw [encUint, decU64, decodeValue_encStr _ (by omega)]
  by_cases hz : n = 0
  · subst hz
    simp [beBytes, beBytesAux, decUintPayload]
  · obtain ⟨b, t, hbt, hb0⟩ := beBytes_head hz
    rw [hbt]
    simp only [decUintPayload]
    rw [if_pos (by rw [← hbt]; exact hle8), if_neg hb0, ← hbt, fromBE_beBytes]

theorem decBool_encBool (b : Bool) : decBool (encBool b) = .ok b := by
  cases b <;> decide

theorem encAddress_eq {a : Nat} (ha : a < 2 ^ 160) :
    encAddress a = 0x94 :: beBytesPad 20 a ∧ (beBytesPad 20 a).length = 20 := by
  have hle : (beBytes a).length ≤ 20 := beBytes_length_le (pow_256_20 ▸ ha)
  have hlen : (beBytesPad 20 a).length = 20 := beBytesPad_length hle
  refine ⟨?_, hlen⟩
  rw [encAddress, encStr, if_neg (by rw [hlen]; simp), strHeader,
    if_pos (by rw [hlen]; omega), hlen]
  norm_num

theorem decAddress_encAddress {a : Nat} (ha : a < 2 ^ 160) :
    decAddress (encAddress a) = .ok a := by
  have hle : (beBytes a).length ≤ 20 := beBytes_length_le (pow_256_20 ▸ ha)
  have hlen : (beBytesPad 20 a).length = 20 := beBytesPad_length hle
  rw [encAddress, decAddress, decodeValue_encStr _ (by rw [hlen]; norm_num)]
  rw [decAddressPayload, if_neg (by omega), if_neg (by omega),
    fromBE_beBytesPad]

theorem encStorageKey_eq {k : Nat} (hk : k < 2 ^ 256) :
    encStorageKey k = 0xa0 :: beBytesPad 32 k ∧
      (beBytesPad 32 k).length = 32 := by
  have hle : (beBytes k).length ≤ 32 := beBytes_length_le (pow_256_32 ▸ hk)
  have hlen : (beBytesPad 32 k).length = 32 := beBytesPad_length hle
  refine ⟨?_, hlen⟩
  rw [encStorageKey, encStr, if_neg (by rw [hlen]; simp), strHeader,
    if_pos (by rw [hlen]; omega), hlen]
  norm_num

theorem decH256_encStorageKey {k : Nat} (hk : k < 2 ^ 256) :
    decH256 (encStorageKey k) = .ok k := by
  have hle : (beBytes k).length ≤ 32 := beBytes_length_le (pow_256_32 ▸ hk)
  have hlen : (beBytesPad 32 k).length = 32 := beBytesPad_length hle
  rw [encStorageKey, decH256, decodeValue_encStr _ (by rw [hlen]; norm_num)]
  rw [decH256Payload, if_neg (by omega), if_neg (by omega), fromBE_beBytesPad]

theorem decBytes_encStr (p : List Nat) (hlen : p.length < 2 ^ 64) :
    decBytes (encStr p) = .ok p := by
  rw [decBytes, decodeValue_encStr _ hlen]

/-- Well-formedness of a `TransactionKind` value: a call address fits in
20 bytes. -/
def KindWF : TransactionKind → Prop
  | .Call a => a < 2 ^ 160
  | .Create => True

theorem kindDecode_encKind {k : TransactionKind} (hk : KindWF k) :
    TransactionKind.decode (encKind k) = .ok k := by
  cases k with
  | Create => rfl
  | Call a =>
    obtain ⟨he, hlen⟩ := encAddress_eq (a := a) hk
    rw [encKind, TransactionKind.decode, if_neg (by rw [he]; simp [rlpIsEmpty])]
    rw [decAddress_encAddress hk]
    rfl

/-! ### Access-list codec facts -/

/-- Size-bounded well-formedness of an access list: addresses fit 20
bytes, keys fit 32 bytes, and the counts are small enough that every
nested length header fits a usize. -/
def AccessListWF (al : AccessList) : Prop :=
  al.length ≤ 2 ^ 16 ∧
    ∀ it ∈ al, it.1 < 2 ^ 160 ∧ it.2.length ≤ 2 ^ 16 ∧
      ∀ k ∈ it.2, k < 2 ^ 256

theorem encStorageKey_length {k : Nat} (hk : k < 2 ^ 256) :
    (encStorageKey k).length = 33 := by
  obtain ⟨he, hlen⟩ := encStorageKey_eq hk
  rw [he]
  simp [hlen]

theorem keysFlatten_length {ks : List Nat} (hk : ∀ k ∈ ks, k < 2 ^ 256) :
    (ks.map encStorageKey).flatten.length = 33 * ks.length := by
  induction ks with
  | nil => simp
  | cons k t ih =>
    simp only [List.map_cons, List.flatten_cons, List.length_append,
      List.length_cons]
    rw [encStorageKey_length (hk k (by simp)), ih (fun x hx => hk x (by simp [hx]))]
    ring

theorem strHeader_length_le {n : Nat} (h : n < 2 ^ 64) :
    (strHeader n).length ≤ 9 := by
  rw [strHeader]
  split
  · simp
  · have := beBytes_length_le (n := n) (by rw [pow_256_8]; exact h)
    simp
    omega

theorem listHeader_length_le {n : Nat} (h : n < 2 ^ 64) :
    (listHeader n).length ≤ 9 := by
  rw [listHeader]
  split
  · simp
  · have := beBytes_length_le (n := n) (by rw [pow_256_8]; exact h)
    simp
    omega

theorem encList_length_le {p : List Nat} (h : p.length < 2 ^ 64) :
    (encList p).length ≤ p.length + 9 := by
  rw [encList]
  have := listHeader_length_le h
  simp only [List.length_append]
  omega

theorem encList_length_ge {p : List Nat} : p.length ≤ (encList p).length := by
  rw [encList]
  simp

theorem flatten_length_le {xs : List (List Nat)} {c : Nat}
    (h : ∀ x ∈ xs, x.length ≤ c) : xs.flatten.length ≤ xs.length * c := by
  induction xs with
  | nil => simp
  | cons x t ih =>
    simp only [List.flatten_cons, List.length_append, List.length_cons]
    have h1 := h x (by simp)
    have h2 := ih (fun y hy => h y (by simp [hy]))
    have : (t.length + 1) * c = t.length * c + c := by ring
    omega

theorem encAddress_length {a : Nat} (ha : a < 2 ^ 160) :
    (encAddress a).length = 21 := by
  obtain ⟨he, hlen⟩ := encAddress_eq ha
  rw [he]
  simp [hlen]

theorem encAccessItem_length_le {a : Nat} {ks : List Nat}
    (ha : a < 2 ^ 160) (hkn : ks.length ≤ 2 ^ 16)
    (hk : ∀ k ∈ ks, k < 2 ^ 256) :
    (encAccessItem (a, ks)).length ≤ 33 * ks.length + 39 := by
  have hkf : (ks.map encStorageKey).flatten.length = 33 * ks.length :=
    keysFlatten_length hk
  have hkf64 : (ks.map encStorageKey).flatten.length < 2 ^ 64 := by
    rw [hkf]; nlinarith
  have hkeys : (encList (ks.map encStorageKey).flatten).length
      ≤ 33 * ks.length + 9 := by
    have := encList_length_le hkf64
    omega
  have hpl : (encAddress a ++ (encList (ks.map encStorageKey).flatten ++ [])).length
      ≤ 33 * ks.length + 30 := by
    simp only [List.length_append, List.length_nil]
    rw [encAddress_length ha]
    omega
  have hpl64 : (encAddress a ++ (encList (ks.map encStorageKey).flatten ++ [])).length
      < 2 ^ 64 := by nlinarith
  calc (encAccessItem (a, ks)).length
      = (encList (encAddress a ++ (encList (ks.map encStorageKey).flatten ++ []))).length := by
        rw [encAccessItem, rlpStreamList, rlpStreamList]
        rfl
    _ ≤ _ + 9 := encList_length_le hpl64
    _ ≤ 33 * ks.length + 39 := by omega

theorem asListItems_stream (its : List (List Nat))
    (hlen : its.flatten.length < 2 ^ 64)
    (H : ∀ it ∈ its, IsRlpItem it) :
    asListItems (rlpStreamList its) = .ok its := by
  rw [rlpStreamList, asListItems, if_pos (rlpIsList_encList _),
    rlpData_encList _ hlen]
  show Except.ok (listItems its.flatten) = _
  rw [listItems_flatten its H]

theorem mapM_decH256 {ks : List Nat} (hk : ∀ k ∈ ks, k < 2 ^ 256) :
    (ks.map encStorageKey).mapM decH256 = .ok ks := by
  induction ks with
  | nil => rfl
  | cons k t ih =>
    rw [List.map_cons, List.mapM_cons,
      decH256_encStorageKey (hk k (by simp)), exceptBind_ok,
      ih (fun x hx => hk x (by simp [hx])), exceptBind_ok]
    rfl

theorem decAccessItem_enc {a : Nat} {ks : List Nat} (ha : a < 2 ^ 160)
    (hkn : ks.length ≤ 2 ^ 16) (hk : ∀ k ∈ ks, k < 2 ^ 256) :
    decAccessItem (encAccessItem (a, ks)) = .ok (a, ks) := by
  have hkf : (ks.map encStorageKey).flatten.length = 33 * ks.length :=
    keysFlatten_length hk
  have hkf64 : (ks.map encStorageKey).flatten.length < 2 ^ 64 := by
    rw [hkf]; nlinarith
  have hKeysItem : IsRlpItem (rlpStreamList (ks.map encStorageKey)) := by
    rw [rlpStreamList]
    exact encList_isItem _ hkf64
  have hAddrItem : IsRlpItem (encAddress a) := by
    obtain ⟨-, hlen⟩ := encAddress_eq ha
    rw [encAddress]
    exact encStr_isItem _ (by rw [hlen]; norm_num)
  have hItems : ∀ x ∈ [encAddress a, rlpStreamList (ks.map encStorageKey)],
      IsRlpItem x := by
    intro x hx
    simp only [List.mem_cons, List.not_mem_nil, or_false] at hx
    rcases hx with rfl | rfl
    · exact hAddrItem
    · exact hKeysItem
  have hflen : ([encAddress a,
      rlpStreamList (ks.map encStorageKey)].flatten).length < 2 ^ 64 := by
    simp only [List.flatten, List.append_nil, List.length_append]
    rw [encAddress_length ha]
    have : (rlpStreamList (ks.map encStorageKey)).length
        ≤ 33 * ks.length + 9 := by
      rw [rlpStreamList]
      have := encList_length_le hkf64
      omega
    nlinarith
  have hAt0 : rlpAt (rlpStreamList
      [encAddress a, rlpStreamList (ks.map encStorageKey)]) 0
      = .ok (encAddress a) := by
    simpa using rlpAt_stream _ hflen hItems 0 (by simp)
  have hAt1 : rlpAt (rlpStreamList
      [encAddress a, rlpStreamList (ks.map encStorageKey)]) 1
      = .ok (rlpStreamList (ks.map encStorageKey)) := by
    simpa using rlpAt_stream _ hflen hItems 1 (by simp)
  have hKeysList : asListItems (rlpStreamList (ks.map encStorageKey))
      = .ok (ks.map encStorageKey) := by
    refine asListItems_stream _ hkf64 ?_
    intro x hx
    obtain ⟨k, hkmem, rfl⟩ := List.mem_map.mp hx
    obtain ⟨-, hlen⟩ := encStorageKey_eq (hk k hkmem)
    rw [encStorageKey]
    exact encStr_isItem _ (by rw [hlen]; norm_num)
  show decAccessItem (rlpStreamList
      [encAddress a, rlpStreamList (ks.map encStorageKey)]) = .ok (a, ks)
  unfold decAccessItem
  rw [hAt0, exceptBind_ok, decAddress_encAddress ha, exceptBind_ok,
    hAt1, exceptBind_ok, hKeysList, exceptBind_ok, mapM_decH256 hk,
    exceptBind_ok]
  rfl

theorem mapM_decAccessItem {al : AccessList}
    (hitems : ∀ it ∈ al, it.1 < 2 ^ 160 ∧ it.2.length ≤ 2 ^ 16 ∧
      ∀ k ∈ it.2, k < 2 ^ 256) :
    (al.map encAccessItem).mapM decAccessItem = .ok al := by
  induction al with
  | nil => rfl
  | cons it t ih =>
    obtain ⟨ha, hkn, hk⟩ := hitems it (by simp)
    rw [List.map_cons, List.mapM_cons]
    have hone : decAccessItem (encAccessItem it) = .ok it := by
      calc decAccessItem (encAccessItem it)
          = decAccessItem (encAccessItem (it.1, it.2)) := by rfl
        _ = .ok (it.1, it.2) := decAccessItem_enc ha hkn hk
        _ = .ok it := by rfl
    rw [hone, exceptBind_ok,
      ih (fun x hx => hitems x (by simp [hx])), exceptBind_ok]
    rfl

theorem decAccessList_enc {al : AccessList} (h : AccessListWF al) :
    decAccessList (encAccessList al) = .ok al := by
  obtain ⟨hn, hitems⟩ := h
  have hbound : ∀ x ∈ al.map encAccessItem, x.length ≤ 33 * 2 ^ 16 + 39 := by
    intro x hx
    obtain ⟨it, hmem, rfl⟩ := List.mem_map.mp hx
    obtain ⟨ha, hkn, hk⟩ := hitems it hmem
    have := encAccessItem_length_le ha hkn hk
    have h2 : 33 * it.2.length ≤ 33 * 2 ^ 16 := by omega
    calc (encAccessItem it).length
        = (encAccessItem (it.1, it.2)).length := by rfl
      _ ≤ 33 * it.2.length + 39 := this
      _ ≤ 33 * 2 ^ 16 + 39 := by omega
  have hflen : (al.map encAccessItem).flatten.length < 2 ^ 64 := by
    have h1 := flatten_length_le hbound
    have h2 : (al.map encAccessItem).length = al.length := List.length_map _ _
    rw [h2] at h1
    nlinarith
  have hIs : ∀ x ∈ al.map encAccessItem, IsRlpItem x := by
    intro x hx
    obtain ⟨it, hmem, rfl⟩ := List.mem_map.mp hx
    obtain ⟨ha, hkn, hk⟩ := hitems it hmem
    have hkf64 : (it.2.map encStorageKey).flatten.length < 2 ^ 64 := by
      rw [keysFlatten_length hk]; nlinarith
    rw [encAccessItem, rlpStreamList]
    apply encList_isItem
    have := encAccessItem_length_le ha hkn hk
    have h3 : (encAccessItem (it.1, it.2)).length
        = (encList ([encAddress it.1,
            rlpStreamList (it.2.map encStorageKey)].flatten)).length := by
      rw [encAccessItem, rlpStreamList]
    have h4 := encList_length_ge
      (p := [encAddress it.1, rlpStreamList (it.2.map encStorageKey)].flatten)
    rw [h3] at this
    nlinarith
  have hList : asListItems (encAccessList al) = .ok (al.map encAccessItem) := by
    rw [encAccessList]
    exact asListItems_stream _ hflen hIs
  unfold decAccessList
  rw [hList, exceptBind_ok]
  exact mapM_decAccessItem hitems

/-! ### Round-trip of `decode_base_rlp` over `rlp()` (eip1559.rs) -/

theorem encAccessList_flatten_lt {al : AccessList} (h : AccessListWF al) :
    (al.map encAccessItem).flatten.length < 2 ^ 38 := by
  obtain ⟨hn, hitems⟩ := h
  have hbound : ∀ x ∈ al.map encAccessItem, x.length ≤ 33 * 2 ^ 16 + 39 := by
    intro x hx
    obtain ⟨it, hmem, rfl⟩ := List.mem_map.mp hx
    obtain ⟨ha, hkn, hk⟩ := hitems it hmem
    have := encAccessItem_length_le ha hkn hk
    calc (encAccessItem it).length
        = (encAccessItem (it.1, it.2)).length := by rfl
      _ ≤ 33 * it.2.length + 39 := this
      _ ≤ 33 * 2 ^ 16 + 39 := by omega
  have h1 := flatten_length_le hbound
  have h2 : (al.map encAccessItem).length = al.length := List.length_map _ _
  rw [h2] at h1
  nlinarith

theorem encAccessList_length_lt {al : AccessList} (h : AccessListWF al) :
    (encAccessList al).length < 2 ^ 39 := by
  have h1 := encAccessList_flatten_lt h
  have h2 := encList_length_le
    (p := (al.map encAccessItem).flatten) (by nlinarith)
  rw [encAccessList, rlpStreamList]
  nlinarith

theorem encAccessList_isItem {al : AccessList} (h : AccessListWF al) :
    IsRlpItem (encAccessList al) := by
  rw [encAccessList, rlpStreamList]
  exact encList_isItem _ (by have := encAccessList_flatten_lt h; nlinarith)

theorem encUint_length_le {n : Nat} (hn : n < 2 ^ 256) :
    (encUint n).length ≤ 33 := by
  have hle : (beBytes n).length ≤ 32 :=
    beBytes_length_le (by rw [pow_256_32]; exact hn)
  rw [encUint, encStr]
  split
  · omega
  · rw [strHeader, if_pos (by omega)]
    simp
    omega

theorem encUint_isItem {n : Nat} (hn : n < 2 ^ 256) :
    IsRlpItem (encUint n) := by
  have hle : (beBytes n).length ≤ 32 :=
    beBytes_length_le (by rw [pow_256_32]; exact hn)
  rw [encUint]
  exact encStr_isItem _ (by omega)

theorem encStrNil_isItem : IsRlpItem (encStr []) :=
  encStr_isItem [] (by simp)

theorem decodeTo_of_none {bs : List Nat} {i : Nat}
    (hAt : rlpAt bs i = .ok (encStr [])) : decodeTo bs i = .ok none := by
  unfold decodeTo
  rw [hAt, exceptBind_ok]
  rfl

theorem decodeRlp_encAddress {a : Nat} (ha : a < 2 ^ 160) :
    NameOrAddress.decodeRlp (encAddress a) = .ok (.Address a) := by
  obtain ⟨he, hlen⟩ := encAddress_eq ha
  have hbpi : basicPayloadInfo (encAddress a) = .ok (1, 20) := by
    apply basicPayloadInfo_of_item
    · rw [he]
      simp [payloadInfoFrom]
    · rw [he]
      simp [hlen]
  have hdata : rlpData (encAddress a) = .ok (beBytesPad 20 a) := by
    have := rlpData_encStr (beBytesPad 20 a) (by rw [hlen]; norm_num)
    rw [encAddress]
    exact this
  have hsize : rlpSize (encAddress a) = 20 := by
    rw [rlpSize, if_pos (by rw [he]; simp [rlpIsData]), hbpi]
    rfl
  rw [NameOrAddress.decodeRlp]
  rw [if_neg (by rw [he]; simp [rlpIsData]), hsize,
    if_neg (by omega), if_neg (by omega), hdata, exceptBind_ok,
    fromBE_beBytesPad]
  rfl

theorem decodeTo_of_addr {bs : List Nat} {i a : Nat} (ha : a < 2 ^ 160)
    (hAt : rlpAt bs i = .ok (encAddress a)) :
    decodeTo bs i = .ok (some (.Address a)) := by
  obtain ⟨he, hlen⟩ := encAddress_eq ha
  unfold decodeTo
  rw [hAt, exceptBind_ok, if_neg (by rw [he]; simp [rlpIsEmpty]),
    decodeRlp_encAddress ha]
  rfl

theorem decodeBaseRlp_stream (c n0 n1 n2 n3 n4 : Nat) (tc dc : List Nat)
    (al : AccessList) (tov : Option NameOrAddress) (dv : Option (List Nat))
    (hcb : c < 2 ^ 64) (hb0 : n0 < 2 ^ 256) (hb1 : n1 < 2 ^ 256)
    (hb2 : n2 < 2 ^ 256) (hb3 : n3 < 2 ^ 256) (hb4 : n4 < 2 ^ 256)
    (htcItem : IsRlpItem tc) (htclen : tc.length ≤ 21)
    (hdcItem : IsRlpItem dc) (hdclen : dc.length ≤ 2 ^ 32 + 9)
    (hal : AccessListWF al)
    (htodec : ∀ bs i, rlpAt bs i = .ok tc → decodeTo bs i = .ok tov)
    (hdp : ∃ dp, rlpData dc = .ok dp ∧
      (if dp.length = 0 then none else some dp) = dv) :
    Eip1559TransactionRequest.decodeBaseRlp (rlpStreamList
      [encUint c, encUint n0, encUint n1, encUint n2, encUint n3, tc,
       encUint n4, dc, encAccessList al])
    = .ok { from_ := none, to_ := tov, gas := some n3, value := some n4
            data := dv, nonce := some n0, access_list := al
            max_priority_fee_per_gas := some n1
            max_fee_per_gas := some n2, chain_id := some c } := by
  obtain ⟨dp, hdpeq, hdpif⟩ := hdp
  have hcb' : c < 2 ^ 256 := by
    have : (2 : Nat) ^ 64 < 2 ^ 256 := by norm_num
    omega
  have hIs : ∀ x ∈ [encUint c, encUint n0, encUint n1, encUint n2,
      encUint n3, tc, encUint n4, dc, encAccessList al], IsRlpItem x := by
    intro x hx
    simp only [List.mem_cons, List.not_mem_nil, or_false] at hx
    rcases hx with rfl | rfl | rfl | rfl | rfl | rfl | rfl | rfl | rfl
    · exact encUint_isItem hcb'
    · exact encUint_isItem hb0
    · exact encUint_isItem hb1
    · exact encUint_isItem hb2
    · exact encUint_isItem hb3
    · exact htcItem
    · exact encUint_isItem hb4
    · exact hdcItem
    · exact encAccessList_isItem hal
  have hflat : ([encUint c, encUint n0, encUint n1, encUint n2, encUint n3,
      tc, encUint n4, dc, encAccessList al].flatten).length < 2 ^ 64 := by
    have e0 := encUint_length_le hcb'
    have e1 := encUint_length_le hb0
    have e2 := encUint_length_le hb1
    have e3 := encUint_length_le hb2
    have e4 := encUint_length_le hb3
    have e5 := encUint_length_le hb4
    have e6 := encAccessList_length_lt hal
    simp only [List.flatten, List.append_nil, List.length_append]
    have hb39 : (2 : Nat) ^ 39 ≤ 2 ^ 64 := by norm_num
    have hb32 : (2 : Nat) ^ 32 + 9 ≤ 2 ^ 33 := by norm_num
    have : (2 : Nat) ^ 39 + 2 ^ 33 + 200 < 2 ^ 64 := by norm_num
    omega
  have hAt0 : rlpAt (rlpStreamList [encUint c, encUint n0, encUint n1,
      encUint n2, encUint n3, tc, encUint n4, dc, encAccessList al]) 0
      = .ok (encUint c) := by
    simpa using rlpAt_stream _ hflat hIs 0 (by norm_num)
  have hAt1 : rlpAt (rlpStreamList [encUint c, encUint n0, encUint n1,
      encUint n2, encUint n3, tc, encUint n4, dc, encAccessList al]) 1
      = .ok (encUint n0) := by
    simpa using rlpAt_stream _ hflat hIs 1 (by norm_num)
  have hAt2 : rlpAt (rlpStreamList [encUint c, encUint n0, encUint n1,
      encUint n2, encUint n3, tc, encUint n4, dc, encAccessList al]) 2
      = .ok (encUint n1) := by
    simpa using rlpAt_stream _ hflat hIs 2 (by norm_num)
  have hAt3 : rlpAt (rlpStreamList [encUint c, encUint n0, encUint n1,
      encUint n2, encUint n3, tc, encUint n4, dc, encAccessList al]) 3
      = .ok (encUint n2) := by
    simpa using rlpAt_stream _ hflat hIs 3 (by norm_num)
  have hAt4 : rlpAt (rlpStreamList [encUint c, encUint n0, encUint n1,
      encUint n2, encUint n3, tc, encUint n4, dc, encAccessList al]) 4
      = .ok (encUint n3) := by
    simpa using rlpAt_stream _ hflat hIs 4 (by norm_num)
  have hAt5 : rlpAt (rlpStreamList [encUint c, encUint n0, encUint n1,
      encUint n2, encUint n3, tc, encUint n4, dc, encAccessList al]) 5
      = .ok tc := by
    simpa using rlpAt_stream _ hflat hIs 5 (by norm_num)
  have hAt6 : rlpAt (rlpStreamList [encUint c, encUint n0, encUint n1,
      encUint n2, encUint n3, tc, encUint n4, dc, encAccessList al]) 6
      = .ok (encUint n4) := by
    simpa using rlpAt_stream _ hflat hIs 6 (by norm_num)
  have hAt7 : rlpAt (rlpStreamList [encUint c, encUint n0, encUint n1,
      encUint n2, encUint n3, tc, encUint n4, dc, encAccessList al]) 7
      = .ok dc := by
    simpa using rlpAt_stream _ hflat hIs 7 (by norm_num)
  have hAt8 : rlpAt (rlpStreamList [encUint c, encUint n0, encUint n1,
      encUint n2, encUint n3, tc, encUint n4, dc, encAccessList al]) 8
      = .ok (encAccessList al) := by
    simpa using rlpAt_stream _ hflat hIs 8 (by norm_num)
  unfold Eip1559TransactionRequest.decodeBaseRlp
  unfold valAtU64 valAtU256 valAtAccessList
  rw [hAt0, exceptBind_ok, decU64_encUint hcb, exceptBind_ok,
    hAt1, exceptBind_ok, decU256_encUint hb0, exceptBind_ok,
    hAt2, exceptBind_ok, decU256_encUint hb1, exceptBind_ok,
    hAt3, exceptBind_ok, decU256_encUint hb2, exceptBind_ok,
    hAt4, exceptBind_ok, decU256_encUint hb3, exceptBind_ok,
    htodec _ _ hAt5, exceptBind_ok,
    hAt6, exceptBind_ok, decU256_encUint hb4, exceptBind_ok,
    hAt7, exceptBind_ok, hdpeq, exceptBind_ok,
    hAt8, exceptBind_ok, decAccessList_enc hal, exceptBind_ok,
    hdpif]
  rfl

theorem encStr_length_le {p : List Nat} (h : p.length < 2 ^ 64) :
    (encStr p).length ≤ p.length + 9 := by
  rw [encStr]
  split
  · omega
  · have := strHeader_length_le h
    simp only [List.length_append]
    omega

/-- Well-formedness hypotheses under which the eip1559.rs unsigned
round-trip holds: `from` absent (it is never encoded), every scalar
present and within its machine width, the recipient absent or a 20-byte
address, the data absent or nonempty, and a size-bounded access list. -/
def Eip1559RequestWF (tx : Eip1559TransactionRequest) : Prop :=
  tx.from_ = none ∧
  (∃ c, tx.chain_id = some c ∧ c < 2 ^ 64) ∧
  (∃ n, tx.nonce = some n ∧ n < 2 ^ 256) ∧
  (∃ n, tx.max_priority_fee_per_gas = some n ∧ n < 2 ^ 256) ∧
  (∃ n, tx.max_fee_per_gas = some n ∧ n < 2 ^ 256) ∧
  (∃ n, tx.gas = some n ∧ n < 2 ^ 256) ∧
  (tx.to_ = none ∨ ∃ a, tx.to_ = some (.Address a) ∧ a < 2 ^ 160) ∧
  (∃ n, tx.value = some n ∧ n < 2 ^ 256) ∧
  (tx.data = none ∨ ∃ d, tx.data = some d ∧ d ≠ [] ∧ d.length < 2 ^ 32) ∧
  AccessListWF tx.access_list

theorem decodeBaseRlp_rlp {tx : Eip1559TransactionRequest}
    (h : Eip1559RequestWF tx) :
    Eip1559TransactionRequest.decodeBaseRlp tx.rlp = .ok tx := by
  obtain ⟨hf, ⟨c, hc, hcb⟩, ⟨n0, hn0, hb0⟩, ⟨n1, hn1, hb1⟩, ⟨n2, hn2, hb2⟩,
    ⟨n3, hn3, hb3⟩, hto, ⟨n4, hn4, hb4⟩, hdata, hal⟩ := h
  have hrlp : tx.rlp = rlpStreamList
      [encUint c, encUint n0, encUint n1, encUint n2, encUint n3,
       rlpOpt NameOrAddress.rlpAppendBytes tx.to_, encUint n4,
       rlpOpt encStr tx.data, encAccessList tx.access_list] := by
    rw [Eip1559TransactionRequest.rlp, Eip1559TransactionRequest.rlpBaseChunks,
      hc, hn0, hn1, hn2, hn3, hn4]
    rfl
  have htcItem : IsRlpItem (rlpOpt NameOrAddress.rlpAppendBytes tx.to_) ∧
      (rlpOpt NameOrAddress.rlpAppendBytes tx.to_).length ≤ 21 := by
    rcases hto with h0 | ⟨a, ha, hab⟩
    · rw [h0]
      exact ⟨encStrNil_isItem, by decide⟩
    · rw [ha]
      obtain ⟨he, hlen⟩ := encAddress_eq hab
      constructor
      · show IsRlpItem (encAddress a)
        rw [encAddress]
        exact encStr_isItem _ (by rw [hlen]; norm_num)
      · show (encAddress a).length ≤ 21
        rw [encAddress_length hab]
  have htodec : ∀ bs i, rlpAt bs i
      = .ok (rlpOpt NameOrAddress.rlpAppendBytes tx.to_) →
      decodeTo bs i = .ok tx.to_ := by
    rcases hto with h0 | ⟨a, ha, hab⟩
    · rw [h0]
      intro bs i hAt
      exact decodeTo_of_none hAt
    · rw [ha]
      intro bs i hAt
      exact decodeTo_of_addr hab hAt
  have hdcItem : IsRlpItem (rlpOpt encStr tx.data) ∧
      (rlpOpt encStr tx.data).length ≤ 2 ^ 32 + 9 := by
    rcases hdata with h0 | ⟨d, hd, hdne, hdlen⟩
    · rw [h0]
      exact ⟨encStrNil_isItem, by decide⟩
    · rw [hd]
      have hd64 : d.length < 2 ^ 64 := by
        have : (2 : Nat) ^ 32 < 2 ^ 64 := by norm_num
        omega
      constructor
      · show IsRlpItem (encStr d)
        exact encStr_isItem _ hd64
      · show (encStr d).length ≤ 2 ^ 32 + 9
        have := encStr_length_le hd64
        omega
  have hdp : ∃ dp, rlpData (rlpOpt encStr tx.data) = .ok dp ∧
      (if dp.length = 0 then none else some dp) = tx.data := by
    rcases hdata with h0 | ⟨d, hd, hdne, hdlen⟩
    · refine ⟨[], ?_, ?_⟩
      · rw [h0]
        exact rlpData_encStr [] (by simp)
      · simp [h0]
    · refine ⟨d, ?_, ?_⟩
      · rw [hd]
        refine rlpData_encStr d ?_
        have : (2 : Nat) ^ 32 < 2 ^ 64 := by norm_num
        omega
      · rw [hd, if_neg (by simpa using hdne)]
  rw [hrlp,
    decodeBaseRlp_stream c n0 n1 n2 n3 n4 _ _ tx.access_list tx.to_ tx.data
      hcb hb0 hb1 hb2 hb3 hb4 htcItem.1 htcItem.2 hdcItem.1 hdcItem.2 hal
      htodec hdp]
  rw [← hf, ← hc, ← hn0, ← hn1, ← hn2, ← hn3, ← hn4]

/-! ### Signed-request wrapper (signed_request.rs + spec §4.5/§4.7)

signed_request.rs declares only the struct `SignedTransactionRequest
{ tx, sig }`; the repository contains no `Encodable`/`Decodable`
implementation for it, and the `TypedTransaction` union of request bodies
it refers to lives in eip2718.rs, which is not under src/.  The codec
below is therefore modelled from the spec: the §4.2-§4.4 field lists give
the per-variant bodies, §4.7 the signed layout (one outer list of the
body fields followed by v, r, s as trimmed big-endian integers), and §4.5
the envelope dispatch (list header ⇒ legacy, type byte 0x01/0x02
otherwise; typed bodies carry their type byte in front of the list). -/

/-- Modelled from the spec: §4.2 legacy body fields. -/
structure SpecLegacyBody where
  nonce : Nat
  gas_price : Nat
  gas_limit : Nat
  kind : TransactionKind
  value : Nat
  input : List Nat
deriving DecidableEq, Repr

/-- Modelled from the spec: §4.3 access-list body fields. -/
structure Spec2930Body where
  chain_id : Nat
  nonce : Nat
  gas_price : Nat
  gas_limit : Nat
  kind : TransactionKind
  value : Nat
  input : List Nat
  access_list : AccessList
deriving DecidableEq, Repr

/-- Modelled from the spec: §4.4 fee-market body fields. -/
structure Spec1559Body where
  chain_id : Nat
  nonce : Nat
  max_priority_fee_per_gas : Nat
  max_fee_per_gas : Nat
  gas_limit : Nat
  kind : TransactionKind
  value : Nat
  input : List Nat
  access_list : AccessList
deriving DecidableEq, Repr

/-- Modelled from the spec: the eip2718.rs union of the three request
bodies. -/
inductive SpecTypedTransaction where
  | legacy (b : SpecLegacyBody)
  | accessList (b : Spec2930Body)
  | feeMarket (b : Spec1559Body)
deriving DecidableEq, Repr

/-- `SignedTransactionRequest` (signed_request.rs): binds a typed
transaction to a signature. -/
structure SignedTransactionRequest where
  tx : SpecTypedTransaction
  sig : Signature
deriving DecidableEq, Repr

def specLegacyBodyItems (b : SpecLegacyBody) : List (List Nat) :=
  [encUint b.nonce, encUint b.gas_price, encUint b.gas_limit,
   encKind b.kind, encUint b.value, encStr b.input]

def spec2930BodyItems (b : Spec2930Body) : List (List Nat) :=
  [encUint b.chain_id, encUint b.nonce, encUint b.gas_price,
   encUint b.gas_limit, encKind b.kind, encUint b.value, encStr b.input,
   encAccessList b.access_list]

def spec1559BodyItems (b : Spec1559Body) : List (List Nat) :=
  [encUint b.chain_id, encUint b.nonce,
   encUint b.max_priority_fee_per_gas, encUint b.max_fee_per_gas,
   encUint b.gas_limit, encKind b.kind, encUint b.value, encStr b.input,
   encAccessList b.access_list]

/-- The trailing v, r, s items of a signed body (§4.7). -/
def sigItems (sig : Signature) : List (List Nat) :=
  [encUint sig.v, encUint sig.r, encUint sig.s]

/-- Modelled from the spec: §4.7 signed-request encoding with the §4.5
envelope convention. -/
def SignedTransactionRequest.encode (req : SignedTransactionRequest) :
    List Nat :=
  match req.tx with
  | .legacy b => rlpStreamList (specLegacyBodyItems b ++ sigItems req.sig)
  | .accessList b =>
    1 :: rlpStreamList (spec2930BodyItems b ++ sigItems req.sig)
  | .feeMarket b =>
    2 :: rlpStreamList (spec1559BodyItems b ++ sigItems req.sig)

/-- Modelled from the spec: §4.2 signed legacy decode, 9 items. -/
def decodeSignedLegacy (bs : List Nat) :
    Except DecErr SignedTransactionRequest := do
  let cnt ← itemCount bs
  if cnt ≠ 9 then .error .RlpIncorrectListLen
  else do
    let nonce ← valAtU256 bs 0
    let gas_price ← valAtU256 bs 1
    let gas_limit ← valAtU256 bs 2
    let kind ← valAtKind bs 3
    let value ← valAtU256 bs 4
    let input ← valAtBytes bs 5
    let v ← valAtU64 bs 6
    let r ← valAtU256 bs 7
    let s ← valAtU256 bs 8
    pure { tx := SpecTypedTransaction.legacy
             { nonce, gas_price, gas_limit, kind, value, input }
           sig := { v := v, r := r, s := s } }

/-- Modelled from the spec: §4.3 signed access-list decode, 11 items. -/
def decodeSigned2930 (bs : List Nat) :
    Except DecErr SignedTransactionRequest := do
  let cnt ← itemCount bs
  if cnt ≠ 11 then .error .RlpIncorrectListLen
  else do
    let chain_id ← valAtU64 bs 0
    let nonce ← valAtU256 bs 1
    let gas_price ← valAtU256 bs 2
    let gas_limit ← valAtU256 bs 3
    let kind ← valAtKind bs 4
    let value ← valAtU256 bs 5
    let input ← valAtBytes bs 6
    let access_list ← valAtAccessList bs 7
    let v ← valAtU64 bs 8
    let r ← valAtU256 bs 9
    let s ← valAtU256 bs 10
    pure { tx := SpecTypedTransaction.accessList
             { chain_id, nonce, gas_price, gas_limit, kind, value, input,
               access_list }
           sig := { v := v, r := r, s := s } }

/-- Modelled from the spec: §4.4 signed fee-market decode, 12 items. -/
def decodeSigned1559 (bs : List Nat) :
    Except DecErr SignedTransactionRequest := do
  let cnt ← itemCount bs
  if cnt ≠ 12 then .error .RlpIncorrectListLen
  else do
    let chain_id ← valAtU64 bs 0
    let nonce ← valAtU256 bs 1
    let max_priority_fee_per_gas ← valAtU256 bs 2
    let max_fee_per_gas ← valAtU256 bs 3
    let gas_limit ← valAtU256 bs 4
    let kind ← valAtKind bs 5
    let value ← valAtU256 bs 6
    let input ← valAtBytes bs 7
    let access_list ← valAtAccessList bs 8
    let v ← valAtU64 bs 9
    let r ← valAtU256 bs 10
    let s ← valAtU256 bs 11
    pure { tx := SpecTypedTransaction.feeMarket
             { chain_id, nonce, max_priority_fee_per_gas, max_fee_per_gas,
               gas_limit, kind, value, input, access_list }
           sig := { v := v, r := r, s := s } }

/-- Modelled from the spec: §4.5 envelope dispatch for the signed
wrapper. -/
def SignedTransactionRequest.decode (bs : List Nat) :
    Except DecErr SignedTransactionRequest :=
  match bs with
  | [] => .error .RlpIsTooShort
  | b :: rest =>
    if 0xc0 ≤ b then decodeSignedLegacy (b :: rest)
    else if b = 1 then decodeSigned2930 rest
    else if b = 2 then decodeSigned1559 rest
    else .error (.Custom "unsupported transaction type")

/-! ### Round-trip of the signed-request codec -/

theorem valAtU256_stream (its : List (List Nat))
    (hlen : its.flatten.length < 2 ^ 64) (H : ∀ it ∈ its, IsRlpItem it)
    (i : Nat) (hi : i < its.length) (it : List Nat)
    (hit : its.get ⟨i, hi⟩ = it) :
    valAtU256 (rlpStreamList its) i = decU256 it := by
  unfold valAtU256
  rw [rlpAt_stream its hlen H i hi, hit, exceptBind_ok]

theorem valAtU64_stream (its : List (List Nat))
    (hlen : its.flatten.length < 2 ^ 64) (H : ∀ it ∈ its, IsRlpItem it)
    (i : Nat) (hi : i < its.length) (it : List Nat)
    (hit : its.get ⟨i, hi⟩ = it) :
    valAtU64 (rlpStreamList its) i = decU64 it := by
  unfold valAtU64
  rw [rlpAt_stream its hlen H i hi, hit, exceptBind_ok]

theorem valAtKind_stream (its : List (List Nat))
    (hlen : its.flatten.length < 2 ^ 64) (H : ∀ it ∈ its, IsRlpItem it)
    (i : Nat) (hi : i < its.length) (it : List Nat)
    (hit : its.get ⟨i, hi⟩ = it) :
    valAtKind (rlpStreamList its) i = TransactionKind.decode it := by
  unfold valAtKind
  rw [rlpAt_stream its hlen H i hi, hit, exceptBind_ok]

theorem valAtBytes_stream (its : List (List Nat))
    (hlen : its.flatten.length < 2 ^ 64) (H : ∀ it ∈ its, IsRlpItem it)
    (i : Nat) (hi : i < its.length) (it : List Nat)
    (hit : its.get ⟨i, hi⟩ = it) :
    valAtBytes (rlpStreamList its) i = decBytes it := by
  unfold valAtBytes
  rw [rlpAt_stream its hlen H i hi, hit, exceptBind_ok]

theorem valAtBool_stream (its : List (List Nat))
    (hlen : its.flatten.length < 2 ^ 64) (H : ∀ it ∈ its, IsRlpItem it)
    (i : Nat) (hi : i < its.length) (it : List Nat)
    (hit : its.get ⟨i, hi⟩ = it) :
    valAtBool (rlpStreamList its) i = decBool it := by
  unfold valAtBool
  rw [rlpAt_stream its hlen H i hi, hit, exceptBind_ok]

theorem valAtAccessList_stream (its : List (List Nat))
    (hlen : its.flatten.length < 2 ^ 64) (H : ∀ it ∈ its, IsRlpItem it)
    (i : Nat) (hi : i < its.length) (it : List Nat)
    (hit : its.get ⟨i, hi⟩ = it) :
    valAtAccessList (rlpStreamList its) i = decAccessList it := by
  unfold valAtAccessList
  rw [rlpAt_stream its hlen H i hi, hit, exceptBind_ok]

theorem encKind_isItem {k : TransactionKind} (hk : KindWF k) :
    IsRlpItem (encKind k) ∧ (encKind k).length ≤ 21 := by
  cases k with
  | Create => exact ⟨encStrNil_isItem, by decide⟩
  | Call a =>
    obtain ⟨he, hlen⟩ := encAddress_eq hk
    refine ⟨?_, ?_⟩
    · show IsRlpItem (encAddress a)
      rw [encAddress]
      exact encStr_isItem _ (by rw [hlen]; norm_num)
    · show (encAddress a).length ≤ 21
      rw [encAddress_length hk]

/-- Well-formedness of a signature value. -/
def SignatureWF (sig : Signature) : Prop :=
  sig.v < 2 ^ 64 ∧ sig.r < 2 ^ 256 ∧ sig.s < 2 ^ 256

/-- Well-formedness of a spec-modelled legacy body. -/
def SpecLegacyBodyWF (b : SpecLegacyBody) : Prop :=
  b.nonce < 2 ^ 256 ∧ b.gas_price < 2 ^ 256 ∧ b.gas_limit < 2 ^ 256 ∧
  KindWF b.kind ∧ b.value < 2 ^ 256 ∧ b.input.length < 2 ^ 32

/-- Well-formedness of a spec-modelled access-list body. -/
def Spec2930BodyWF (b : Spec2930Body) : Prop :=
  b.chain_id < 2 ^ 64 ∧ b.nonce < 2 ^ 256 ∧ b.gas_price < 2 ^ 256 ∧
  b.gas_limit < 2 ^ 256 ∧ KindWF b.kind ∧ b.value < 2 ^ 256 ∧
  b.input.length < 2 ^ 32 ∧ AccessListWF b.access_list

/-- Well-formedness of a spec-modelled fee-market body. -/
def Spec1559BodyWF (b : Spec1559Body) : Prop :=
  b.chain_id < 2 ^ 64 ∧ b.nonce < 2 ^ 256 ∧
  b.max_priority_fee_per_gas < 2 ^ 256 ∧ b.max_fee_per_gas < 2 ^ 256 ∧
  b.gas_limit < 2 ^ 256 ∧ KindWF b.kind ∧ b.value < 2 ^ 256 ∧
  b.input.length < 2 ^ 32 ∧ AccessListWF b.access_list

/-- Well-formedness of a signed request value. -/
def SignedRequestWF (req : SignedTransactionRequest) : Prop :=
  SignatureWF req.sig ∧
  match req.tx with
  | .legacy b => SpecLegacyBodyWF b
  | .accessList b => Spec2930BodyWF b
  | .feeMarket b => Spec1559BodyWF b

theorem decodeSignedLegacy_enc {b : SpecLegacyBody} {sig : Signature}
    (hb : SpecLegacyBodyWF b) (hs : SignatureWF sig) :
    decodeSignedLegacy
      (rlpStreamList (specLegacyBodyItems b ++ sigItems sig))
      = .ok { tx := SpecTypedTransaction.legacy b, sig := sig } := by
  obtain ⟨h0, h1, h2, hk, h4, h5⟩ := hb
  obtain ⟨hv, hr, hss⟩ := hs
  have hv' : sig.v < 2 ^ 256 := by
    have : (2 : Nat) ^ 64 < 2 ^ 256 := by norm_num
    omega
  obtain ⟨hkItem, hkLen⟩ := encKind_isItem hk
  have h64 : b.input.length < 2 ^ 64 := by
    have : (2 : Nat) ^ 32 < 2 ^ 64 := by norm_num
    omega
  have hIs : ∀ x ∈ specLegacyBodyItems b ++ sigItems sig, IsRlpItem x := by
    intro x hx
    simp only [specLegacyBodyItems, sigItems, List.cons_append,
      List.nil_append, List.mem_cons, List.not_mem_nil, or_false] at hx
    rcases hx with rfl | rfl | rfl | rfl | rfl | rfl | rfl | rfl | rfl
    · exact encUint_isItem h0
    · exact encUint_isItem h1
    · exact encUint_isItem h2
    · exact hkItem
    · exact encUint_isItem h4
    · exact encStr_isItem _ h64
    · exact encUint_isItem hv'
    · exact encUint_isItem hr
    · exact encUint_isItem hss
  have hflat : ((specLegacyBodyItems b ++ sigItems sig).flatten).length
      < 2 ^ 64 := by
    have e0 := encUint_length_le h0
    have e1 := encUint_length_le h1
    have e2 := encUint_length_le h2
    have e4 := encUint_length_le h4
    have e6 := encUint_length_le hv'
    have e7 := encUint_length_le hr
    have e8 := encUint_length_le hss
    have e5 := encStr_length_le h64
    simp only [specLegacyBodyItems, sigItems, List.cons_append,
      List.nil_append, List.flatten, List.append_nil, List.length_append]
    have : (2 : Nat) ^ 32 + 300 < 2 ^ 64 := by norm_num
    omega
  have hcnt : itemCount
      (rlpStreamList (specLegacyBodyItems b ++ sigItems sig)) = .ok 9 := by
    simpa [specLegacyBodyItems, sigItems] using
      itemCount_stream _ hflat hIs
  have hlen9 : (specLegacyBodyItems b ++ sigItems sig).length = 9 := by
    simp [specLegacyBodyItems, sigItems]
  unfold decodeSignedLegacy
  rw [hcnt, exceptBind_ok, if_neg (by decide),
    valAtU256_stream _ hflat hIs 0 (by omega) (encUint b.nonce) rfl, decU256_encUint h0,
    exceptBind_ok,
    valAtU256_stream _ hflat hIs 1 (by omega) (encUint b.gas_price) rfl, decU256_encUint h1,
    exceptBind_ok,
    valAtU256_stream _ hflat hIs 2 (by omega) (encUint b.gas_limit) rfl, decU256_encUint h2,
    exceptBind_ok,
    valAtKind_stream _ hflat hIs 3 (by omega) (encKind b.kind) rfl, kindDecode_encKind hk,
    exceptBind_ok,
    valAtU256_stream _ hflat hIs 4 (by omega) (encUint b.value) rfl, decU256_encUint h4,
    exceptBind_ok,
    valAtBytes_stream _ hflat hIs 5 (by omega) (encStr b.input) rfl, decBytes_encStr _ h64,
    exceptBind_ok,
    valAtU64_stream _ hflat hIs 6 (by omega) (encUint sig.v) rfl, decU64_encUint hv,
    exceptBind_ok,
    valAtU256_stream _ hflat hIs 7 (by omega) (encUint sig.r) rfl, decU256_encUint hr,
    exceptBind_ok,
    valAtU256_stream _ hflat hIs 8 (by omega) (encUint sig.s) rfl, decU256_encUint hss,
    exceptBind_ok]
  rfl

theorem decodeSigned2930_enc {b : Spec2930Body} {sig : Signature}
    (hb : Spec2930BodyWF b) (hs : SignatureWF sig) :
    decodeSigned2930
      (rlpStreamList (spec2930BodyItems b ++ sigItems sig))
      = .ok { tx := SpecTypedTransaction.accessList b, sig := sig } := by
  obtain ⟨hc, h0, h1, h2, hk, h4, h5, hal⟩ := hb
  obtain ⟨hv, hr, hss⟩ := hs
  have hv' : sig.v < 2 ^ 256 := by
    have : (2 : Nat) ^ 64 < 2 ^ 256 := by norm_num
    omega
  have hc' : b.chain_id < 2 ^ 256 := by
    have : (2 : Nat) ^ 64 < 2 ^ 256 := by norm_num
    omega
  obtain ⟨hkItem, hkLen⟩ := encKind_isItem hk
  have h64 : b.input.length < 2 ^ 64 := by
    have : (2 : Nat) ^ 32 < 2 ^ 64 := by norm_num
    omega
  have hIs : ∀ x ∈ spec2930BodyItems b ++ sigItems sig, IsRlpItem x := by
    intro x hx
    simp only [spec2930BodyItems, sigItems, List.cons_append,
      List.nil_append, List.mem_cons, List.not_mem_nil, or_false] at hx
    rcases hx with rfl | rfl | rfl | rfl | rfl | rfl | rfl | rfl | rfl | rfl | rfl
    · exact encUint_isItem hc'
    · exact encUint_isItem h0
    · exact encUint_isItem h1
    · exact encUint_isItem h2
    · exact hkItem
    · exact encUint_isItem h4
    · exact encStr_isItem _ h64
    · exact encAccessList_isItem hal
    · exact encUint_isItem hv'
    · exact encUint_isItem hr
    · exact encUint_isItem hss
  have hflat : ((spec2930BodyItems b ++ sigItems sig).flatten).length
      < 2 ^ 64 := by
    have e0 := encUint_length_le hc'
    have e1 := encUint_length_le h0
    have e2 := encUint_length_le h1
    have e3 := encUint_length_le h2
    have e4 := encUint_length_le h4
    have e6 := encUint_length_le hv'
    have e7 := encUint_length_le hr
    have e8 := encUint_length_le hss
    have e5 := encStr_length_le h64
    have e9 := encAccessList_length_lt hal
    simp only [spec2930BodyItems, sigItems, List.cons_append,
      List.nil_append, List.flatten, List.append_nil, List.length_append]
    have : (2 : Nat) ^ 32 + 2 ^ 39 + 400 < 2 ^ 64 := by norm_num
    omega
  have hcnt : itemCount
      (rlpStreamList (spec2930BodyItems b ++ sigItems sig)) = .ok 11 := by
    simpa [spec2930BodyItems, sigItems] using
      itemCount_stream _ hflat hIs
  have hlen11 : (spec2930BodyItems b ++ sigItems sig).length = 11 := by
    simp [spec2930BodyItems, sigItems]
  unfold decodeSigned2930
  rw [hcnt, exceptBind_ok, if_neg (by decide),
    valAtU64_stream _ hflat hIs 0 (by omega) (encUint b.chain_id) rfl,
    decU64_encUint hc, exceptBind_ok,
    valAtU256_stream _ hflat hIs 1 (by omega) (encUint b.nonce) rfl,
    decU256_encUint h0, exceptBind_ok,
    valAtU256_stream _ hflat hIs 2 (by omega) (encUint b.gas_price) rfl,
    decU256_encUint h1, exceptBind_ok,
    valAtU256_stream _ hflat hIs 3 (by omega) (encUint b.gas_limit) rfl,
    decU256_encUint h2, exceptBind_ok,
    valAtKind_stream _ hflat hIs 4 (by omega) (encKind b.kind) rfl,
    kindDecode_encKind hk, exceptBind_ok,
    valAtU256_stream _ hflat hIs 5 (by omega) (encUint b.value) rfl,
    decU256_encUint h4, exceptBind_ok,
    valAtBytes_stream _ hflat hIs 6 (by omega) (encStr b.input) rfl,
    decBytes_encStr _ h64, exceptBind_ok,
    valAtAccessList_stream _ hflat hIs 7 (by omega)
      (encAccessList b.access_list) rfl,
    decAccessList_enc hal, exceptBind_ok,
    valAtU64_stream _ hflat hIs 8 (by omega) (encUint sig.v) rfl,
    decU64_encUint hv, exceptBind_ok,
    valAtU256_stream _ hflat hIs 9 (by omega) (encUint sig.r) rfl,
    decU256_encUint hr, exceptBind_ok,
    valAtU256_stream _ hflat hIs 10 (by omega) (encUint sig.s) rfl,
    decU256_encUint hss, exceptBind_ok]
  rfl

theorem decodeSigned1559_enc {b : Spec1559Body} {sig : Signature}
    (hb : Spec1559BodyWF b) (hs : SignatureWF sig) :
    decodeSigned1559
      (rlpStreamList (spec1559BodyItems b ++ sigItems sig))
      = .ok { tx := SpecTypedTransaction.feeMarket b, sig := sig } := by
  obtain ⟨hc, h0, h1, h2, h3, hk, h4, h5, hal⟩ := hb
  obtain ⟨hv, hr, hss⟩ := hs
  have hv' : sig.v < 2 ^ 256 := by
    have : (2 : Nat) ^ 64 < 2 ^ 256 := by norm_num
    omega
  have hc' : b.chain_id < 2 ^ 256 := by
    have : (2 : Nat) ^ 64 < 2 ^ 256 := by norm_num
    omega
  obtain ⟨hkItem, hkLen⟩ := encKind_isItem hk
  have h64 : b.input.length < 2 ^ 64 := by
    have : (2 : Nat) ^ 32 < 2 ^ 64 := by norm_num
    omega
  have hIs : ∀ x ∈ spec1559BodyItems b ++ sigItems sig, IsRlpItem x := by
    intro x hx
    simp only [spec1559BodyItems, sigItems, List.cons_append,
      List.nil_append, List.mem_cons, List.not_mem_nil, or_false] at hx
    rcases hx with rfl | rfl | rfl | rfl | rfl | rfl | rfl | rfl | rfl | rfl | rfl | rfl
    · exact encUint_isItem hc'
    · exact encUint_isItem h0
    · exact encUint_isItem h1
    · exact encUint_isItem h2
    · exact encUint_isItem h3
    · exact hkItem
    · exact encUint_isItem h4
    · exact encStr_isItem _ h64
    · exact encAccessList_isItem hal
    · exact encUint_isItem hv'
    · exact encUint_isItem hr
    · exact encUint_isItem hss
  have hflat : ((spec1559BodyItems b ++ sigItems sig).flatten).length
      < 2 ^ 64 := by
    have e0 := encUint_length_le hc'
    have e1 := encUint_length_le h0
    have e2 := encUint_length_le h1
    have e3 := encUint_length_le h2
    have e3' := encUint_length_le h3
    have e4 := encUint_length_le h4
    have e6 := encUint_length_le hv'
    have e7 := encUint_length_le hr
    have e8 := encUint_length_le hss
    have e5 := encStr_length_le h64
    have e9 := encAccessList_length_lt hal
    simp only [spec1559BodyItems, sigItems, List.cons_append,
      List.nil_append, List.flatten, List.append_nil, List.length_append]
    have : (2 : Nat) ^ 32 + 2 ^ 39 + 400 < 2 ^ 64 := by norm_num
    omega
  have hcnt : itemCount
      (rlpStreamList (spec1559BodyItems b ++ sigItems sig)) = .ok 12 := by
    simpa [spec1559BodyItems, sigItems] using
      itemCount_stream _ hflat hIs
  have hlen12 : (spec1559BodyItems b ++ sigItems sig).length = 12 := by
    simp [spec1559BodyItems, sigItems]
  unfold decodeSigned1559
  rw [hcnt, exceptBind_ok, if_neg (by decide),
    valAtU64_stream _ hflat hIs 0 (by omega) (encUint b.chain_id) rfl,
    decU64_encUint hc, exceptBind_ok,
    valAtU256_stream _ hflat hIs 1 (by omega) (encUint b.nonce) rfl,
    decU256_encUint h0, exceptBind_ok,
    valAtU256_stream _ hflat hIs 2 (by omega)
      (encUint b.max_priority_fee_per_gas) rfl,
    decU256_encUint h1, exceptBind_ok,
    valAtU256_stream _ hflat hIs 3 (by omega)
      (encUint b.max_fee_per_gas) rfl,
    decU256_encUint h2, exceptBind_ok,
    valAtU256_stream _ hflat hIs 4 (by omega) (encUint b.gas_limit) rfl,
    decU256_encUint h3, exceptBind_ok,
    valAtKind_stream _ hflat hIs 5 (by omega) (encKind b.kind) rfl,
    kindDecode_encKind hk, exceptBind_ok,
    valAtU256_stream _ hflat hIs 6 (by omega) (encUint b.value) rfl,
    decU256_encUint h4, exceptBind_ok,
    valAtBytes_stream _ hflat hIs 7 (by omega) (encStr b.input) rfl,
    decBytes_encStr _ h64, exceptBind_ok,
    valAtAccessList_stream _ hflat hIs 8 (by omega)
      (encAccessList b.access_list) rfl,
    decAccessList_enc hal, exceptBind_ok,
    valAtU64_stream _ hflat hIs 9 (by omega) (encUint sig.v) rfl,
    decU64_encUint hv, exceptBind_ok,
    valAtU256_stream _ hflat hIs 10 (by omega) (encUint sig.r) rfl,
    decU256_encUint hr, exceptBind_ok,
    valAtU256_stream _ hflat hIs 11 (by omega) (encUint sig.s) rfl,
    decU256_encUint hss, exceptBind_ok]
  rfl

theorem rlpStreamList_head_ge (its : List (List Nat)) :
    ∃ b t, rlpStreamList its = b :: t ∧ 0xc0 ≤ b := by
  rw [rlpStreamList, encList, listHeader]
  split
  · exact ⟨_, _, rfl, by omega⟩
  · exact ⟨_, _, rfl, by omega⟩

theorem signedRequest_roundtrip {req : SignedTransactionRequest}
    (h : SignedRequestWF req) :
    SignedTransactionRequest.decode
      (SignedTransactionRequest.encode req) = .ok req := by
  obtain ⟨hs, htx⟩ := h
  obtain ⟨tx, sig⟩ := req
  cases tx with
  | legacy b =>
    obtain ⟨b0, t0, heq, hge⟩ :=
      rlpStreamList_head_ge (specLegacyBodyItems b ++ sigItems sig)
    simp only [SignedTransactionRequest.encode]
    rw [heq]
    simp only [SignedTransactionRequest.decode]
    rw [if_pos hge, ← heq]
    exact decodeSignedLegacy_enc htx hs
  | accessList b =>
    exact decodeSigned2930_enc htx hs
  | feeMarket b =>
    exact decodeSigned1559_enc htx hs

/-! ### Bit-length facts bridging the fastrlp length computations -/

theorem bitLenAux_irrel (n : Nat) : ∀ fuel fuel', n ≤ fuel → n ≤ fuel' →
    bitLenAux fuel n = bitLenAux fuel' n := by
  induction n using Nat.strong_induction_on with
  | _ n ih =>
    intro fuel fuel' h h'
    match fuel, fuel' with
    | 0, 0 => rfl
    | 0, f' + 1 =>
      have : n = 0 := by omega
      simp [this, bitLenAux]
    | f + 1, 0 =>
      have : n = 0 := by omega
      simp [this, bitLenAux]
    | f + 1, f' + 1 =>
      simp only [bitLenAux]
      by_cases hz : n = 0
      · simp [hz]
      · rw [if_neg hz, if_neg hz]
        have hlt : n / 2 < n :=
          Nat.div_lt_self (Nat.pos_of_ne_zero hz) (by omega)
        rw [ih (n / 2) hlt f f' (by omega) (by omega)]

/-- The defining recurrence of `bitLen`. -/
theorem bitLen_eq (n : Nat) :
    bitLen n = if n = 0 then 0 else bitLen (n / 2) + 1 := by
  by_cases hz : n = 0
  · simp [hz, bitLen, bitLenAux]
  · rw [if_neg hz]
    obtain ⟨m, rfl⟩ : ∃ m, n = m + 1 := ⟨n - 1, by omega⟩
    show bitLenAux (m + 1) (m + 1) = _
    simp only [bitLenAux, if_neg hz]
    congr 1
    exact bitLenAux_irrel _ _ _ (by omega) (Nat.le_refl _)

theorem bitLen_lt (n : Nat) : n < 2 ^ bitLen n := by
  induction n using Nat.strong_induction_on with
  | _ n ih =>
    rw [bitLen_eq]
    by_cases h : n = 0
    · simp [h]
    · rw [if_neg h]
      have hd := ih (n / 2) (Nat.div_lt_self (Nat.pos_of_ne_zero h) (by omega))
      rw [pow_succ]
      have h1 : n / 2 + 1 ≤ 2 ^ bitLen (n / 2) := hd
      calc n < 2 * (n / 2 + 1) := by omega
        _ ≤ 2 * 2 ^ bitLen (n / 2) := Nat.mul_le_mul_left 2 h1
        _ = 2 ^ bitLen (n / 2) * 2 := by ring

theorem bitLen_pos {n : Nat} (h : n ≠ 0) : 1 ≤ bitLen n := by
  rw [bitLen_eq, if_neg h]
  omega

theorem bitLen_pow_le {n : Nat} (h : n ≠ 0) :
    2 ^ (bitLen n - 1) ≤ n := by
  induction n using Nat.strong_induction_on with
  | _ n ih =>
    rw [bitLen_eq, if_neg h]
    by_cases hq : n / 2 = 0
    · simp [hq, bitLen, bitLenAux]
      omega
    · have hlt : n / 2 < n := Nat.div_lt_self (Nat.pos_of_ne_zero h) (by omega)
      have hd := ih (n / 2) hlt hq
      have hp := bitLen_pos hq
      have heq : bitLen (n / 2) + 1 - 1 = (bitLen (n / 2) - 1) + 1 := by omega
      rw [heq, pow_succ]
      have : 2 ^ (bitLen (n / 2) - 1) * 2 ≤ (n / 2) * 2 :=
        Nat.mul_le_mul_right 2 hd
      omega

theorem bitLen_le_of_lt {v k : Nat} (h : v < 2 ^ k) : bitLen v ≤ k := by
  by_cases hz : v = 0
  · subst hz
    simp [bitLen, bitLenAux]
  · by_contra hc
    push_neg at hc
    have h4 := bitLen_pow_le hz
    have h5 : (2 : Nat) ^ k ≤ 2 ^ (bitLen v - 1) :=
      Nat.pow_le_pow_right (by omega) (by omega)
    omega

theorem bitLen_ge {v k : Nat} (h : 2 ^ k ≤ v) : k + 1 ≤ bitLen v := by
  by_contra hc
  push_neg at hc
  have h3 := bitLen_lt v
  have h5 : (2 : Nat) ^ bitLen v ≤ 2 ^ k :=
    Nat.pow_le_pow_right (by omega) (by omega)
  omega

/-- The byte length of the minimal big-endian form is the bit length
rounded up to whole bytes. -/
theorem beBytes_length_bitLen (n : Nat) :
    (beBytes n).length = (bitLen n + 7) / 8 := by
  by_cases hz : n = 0
  · subst hz
    simp [beBytes, beBytesAux, bitLen, bitLenAux]
  · have h1 := beBytes_lt n
    have h2 := beBytes_pow_le hz
    have h3 := bitLen_lt n
    have h4 := bitLen_pow_le hz
    have h5 := beBytes_length_pos hz
    have h6 := bitLen_pos hz
    have ha : (256 : Nat) ^ ((beBytes n).length - 1)
        = 2 ^ (8 * ((beBytes n).length - 1)) := by
      rw [pow_mul]
      norm_num
    have hb : (256 : Nat) ^ (beBytes n).length
        = 2 ^ (8 * (beBytes n).length) := by
      rw [pow_mul]
      norm_num
    rw [ha] at h2
    rw [hb] at h1
    have hlt1 : 8 * ((beBytes n).length - 1) < bitLen n := by
      by_contra hc
      push_neg at hc
      have h7 : (2 : Nat) ^ bitLen n ≤ 2 ^ (8 * ((beBytes n).length - 1)) :=
        Nat.pow_le_pow_right (by omega) hc
      omega
    have hle2 : bitLen n ≤ 8 * (beBytes n).length := by
      by_contra hc
      push_neg at hc
      have h7 : (2 : Nat) ^ (8 * (beBytes n).length) ≤ 2 ^ (bitLen n - 1) :=
        Nat.pow_le_pow_right (by omega) (by omega)
      omega
    omega

theorem beBytes_small {v : Nat} (h0 : 0 < v) (h : v < 256) :
    beBytes v = [v] := by
  rw [beBytes_eq, if_neg (by omega), Nat.div_eq_of_lt h, Nat.mod_eq_of_lt h]
  rfl

/-- The first byte of a nonzero minimal big-endian form of a one-byte
value is the value itself; used to rule out the headerless single-byte
case for values `0x80` and above. -/
theorem beBytes_singleton {v b : Nat} (hz : v ≠ 0) (h : beBytes v = [b]) :
    b = v := by
  have := fromBE_beBytes v
  rw [h] at this
  simpa [fromBE] using this

/-! ### fastrlp scalar slices versus the canonical integer encoding -/

/-- Under a bit length not divisible by 8, the hand-rolled
`uint_container[31 - bits / 8..]` slice is exactly the minimal
big-endian form. -/
theorem fastScalarSlice_eq {v : Nat} (h0 : 0 < v)
    (h8 : bitLen v % 8 ≠ 0) (hv : v < 2 ^ 256) :
    fastScalarSlice v = beBytes v := by
  have hlen := beBytes_length_bitLen v
  have hle : (beBytes v).length ≤ 32 := by
    refine beBytes_length_le ?_
    have : (256 : Nat) ^ 32 = 2 ^ 256 := by norm_num
    omega
  have hL := bitLen_pos (by omega : v ≠ 0)
  rw [fastScalarSlice, beBytesPad]
  have hd : 31 - bitLen v / 8 = 32 - (beBytes v).length := by omega
  rw [hd]
  exact List.drop_left' (by simp)

theorem fastScalarField_eq {v : Nat} (h0 : 0 < v)
    (h8 : bitLen v % 8 ≠ 0) (hv : v < 2 ^ 256) :
    fastScalarField v = encUint v := by
  rw [fastScalarField, fastScalarSlice_eq h0 h8 hv, encUint]

/-- The fastrlp `u64` length computation agrees with the canonical
encoded length for all 64-bit values. -/
theorem fastU64Length_eq {v : Nat} (hv : v < 2 ^ 64) :
    fastU64Length v = (encUint v).length := by
  rw [fastU64Length, encUint, encStr]
  by_cases hs : v < 0x80
  · rw [if_pos hs]
    by_cases hz : v = 0
    · subst hz
      simp [beBytes, beBytesAux, strHeader]
    · rw [beBytes_small (by omega) (by omega)]
      rw [if_pos (by simpa using hs)]
      simp
  · rw [if_neg hs]
    have hz : v ≠ 0 := by omega
    have hlen := beBytes_length_bitLen v
    have hL1 : 8 ≤ bitLen v := bitLen_ge (show 2 ^ 7 ≤ v by omega)
    have hL2 : bitLen v ≤ 64 := bitLen_le_of_lt hv
    have hne : ¬ ((beBytes v).length = 1 ∧ (beBytes v).headD 0 < 0x80) := by
      rintro ⟨hlen1, hhd⟩
      obtain ⟨b, t, hbt, hb⟩ := beBytes_head hz
      rw [hbt] at hlen1 hhd
      simp only [List.length_cons, List.headD_cons] at hlen1 hhd
      have ht : t = [] := by
        cases t with
        | nil => rfl
        | cons x u => simp at hlen1
      rw [ht] at hbt
      have := beBytes_singleton hz hbt
      omega
    rw [if_neg hne, strHeader, if_pos (by omega)]
    simp only [List.length_append, List.length_cons, List.length_nil]
    omega

/-- The per-scalar length the hand-rolled `length` adds (base bytes plus
the conditional header byte) equals the canonical encoded length, for
scalars that are nonzero, not `0x7f`, and of bit length not divisible
by 8. -/
theorem fastScalarLen_eq {v : Nat} (h0 : 0 < v) (h7f : v ≠ 0x7f)
    (h8 : bitLen v % 8 ≠ 0) (hv : v < 2 ^ 256) :
    (32 - (256 - bitLen v) / 8) + (if v < 0x7f then 0 else 1)
      = (encUint v).length := by
  rw [encUint, encStr]
  have hlen := beBytes_length_bitLen v
  have hL1 := bitLen_pos (show v ≠ 0 by omega)
  have hL2 : bitLen v ≤ 256 := bitLen_le_of_lt hv
  by_cases hs : v < 0x7f
  · rw [if_pos hs, beBytes_small h0 (by omega)]
    rw [if_pos (by constructor <;> simp <;> omega)]
    have hL7 : bitLen v ≤ 7 := bitLen_le_of_lt (show v < 2 ^ 7 by omega)
    simp only [List.length_cons, List.length_nil]
    omega
  · rw [if_neg hs]
    have hge : 0x80 ≤ v := by omega
    have hz : v ≠ 0 := by omega
    have hL8 : 8 ≤ bitLen v := bitLen_ge (show 2 ^ 7 ≤ v by omega)
    have hne : ¬ ((beBytes v).length = 1 ∧ (beBytes v).headD 0 < 0x80) := by
      rintro ⟨hlen1, hhd⟩
      obtain ⟨b, t, hbt, hb⟩ := beBytes_head hz
      rw [hbt] at hlen1 hhd
      simp only [List.length_cons, List.headD_cons] at hlen1 hhd
      have ht : t = [] := by
        cases t with
        | nil => rfl
        | cons x u => simp at hlen1
      rw [ht] at hbt
      have := beBytes_singleton hz hbt
      omega
    rw [if_neg hne, strHeader, if_pos (by omega)]
    simp only [List.length_append, List.length_cons, List.length_nil]
    omega

/-- fastrlp byte-string length agrees with the canonical encoded length
for short payloads. -/
theorem fastBytesLength_eq {d : List Nat} (h : d.length ≤ 55) :
    fastBytesLength d = (encStr d).length := by
  rw [fastBytesLength, encStr]
  by_cases hc : d.length = 1 ∧ d.headD 0 < 0x80
  · rw [if_pos hc, if_pos hc]
    exact hc.1.symm
  · rw [if_neg hc, if_neg hc, strHeader, if_pos h, lengthOfLength,
      if_pos (by omega)]
    simp only [List.length_append, List.length_cons, List.length_nil]
    omega

/-- The recipient bytes the fastrlp encoder writes agree with the
`rlp_opt` path when the recipient is absent or a nonzero address. -/
theorem fastTo_eq {o : Option NameOrAddress}
    (h : o = none ∨ ∃ a, o = some (.Address a) ∧ 0 < a ∧ a < 2 ^ 160) :
    (o.getD (.Address 0)).fastEncode
      = rlpOpt NameOrAddress.rlpAppendBytes o := by
  rcases h with rfl | ⟨a, rfl, ha0, hab⟩
  · decide
  · simp only [Option.getD_some, NameOrAddress.fastEncode, rlpOpt,
      NameOrAddress.rlpAppendBytes, encAddress]
    rw [if_neg (by omega)]

theorem fastToLen_eq {o : Option NameOrAddress}
    (h : o = none ∨ ∃ a, o = some (.Address a) ∧ 0 < a ∧ a < 2 ^ 160) :
    (o.getD (.Address 0)).fastLength
      = (rlpOpt NameOrAddress.rlpAppendBytes o).length := by
  rcases h with rfl | ⟨a, rfl, ha0, hab⟩
  · decide
  · simp only [Option.getD_some, NameOrAddress.fastLength, rlpOpt,
      NameOrAddress.rlpAppendBytes]
    rw [if_neg (by omega), encAddress_length hab]

theorem fastData_eq (o : Option (List Nat)) :
    encStr (o.getD []) = rlpOpt encStr o := by
  cases o <;> rfl

theorem fastDataLen_eq {o : Option (List Nat)}
    (h : o = none ∨ ∃ d, o = some d ∧ d.length ≤ 55) :
    fastBytesLength (o.getD []) = (rlpOpt encStr o).length := by
  rcases h with rfl | ⟨d, rfl, hd⟩
  · decide
  · simp only [Option.getD_some, rlpOpt]
    exact fastBytesLength_eq hd

/-- Hypotheses under which the two unsigned eip1559.rs encoders agree:
chain id present, every scalar present, nonzero, not `0x7f` and of bit
length not divisible by 8 (so the hand-rolled slice and header count are
right), the recipient absent or a nonzero address, the data absent or at
most 55 bytes, a bounded access list, and a total payload of at most 55
bytes. -/
def FastRlpAgreeWF (tx : Eip1559TransactionRequest) : Prop :=
  (∃ c, tx.chain_id = some c ∧ c < 2 ^ 64) ∧
  (∃ v, tx.nonce = some v ∧
    0 < v ∧ v ≠ 0x7f ∧ bitLen v % 8 ≠ 0 ∧ v < 2 ^ 256) ∧
  (∃ v, tx.max_priority_fee_per_gas = some v ∧
    0 < v ∧ v ≠ 0x7f ∧ bitLen v % 8 ≠ 0 ∧ v < 2 ^ 256) ∧
  (∃ v, tx.max_fee_per_gas = some v ∧
    0 < v ∧ v ≠ 0x7f ∧ bitLen v % 8 ≠ 0 ∧ v < 2 ^ 256) ∧
  (∃ v, tx.gas = some v ∧
    0 < v ∧ v ≠ 0x7f ∧ bitLen v % 8 ≠ 0 ∧ v < 2 ^ 256) ∧
  (tx.to_ = none ∨ ∃ a, tx.to_ = some (.Address a) ∧ 0 < a ∧ a < 2 ^ 160) ∧
  (∃ v, tx.value = some v ∧
    0 < v ∧ v ≠ 0x7f ∧ bitLen v % 8 ≠ 0 ∧ v < 2 ^ 256) ∧
  (tx.data = none ∨ ∃ d, tx.data = some d ∧ d.length ≤ 55) ∧
  tx.fastLength ≤ 55

/-- Restricted agreement of the two unsigned encoders (the helper behind
the amended C10). -/
theorem fastEncode_eq_rlp {tx : Eip1559TransactionRequest}
    (h : FastRlpAgreeWF tx) :
    tx.fastEncode = tx.rlp := by
  obtain ⟨⟨c, hc, hcb⟩, ⟨n0, hn0, hn00, hn01, hn02, hn03⟩,
    ⟨n1, hn1, hn10, hn11, hn12, hn13⟩, ⟨n2, hn2, hn20, hn21, hn22, hn23⟩,
    ⟨n3, hn3, hn30, hn31, hn32, hn33⟩, hto,
    ⟨n4, hn4, hn40, hn41, hn42, hn43⟩, hdata, hlen55⟩ := h
  have hpay : tx.fastPayload = tx.rlpBaseChunks.flatten := by
    simp only [Eip1559TransactionRequest.fastPayload,
      Eip1559TransactionRequest.rlpBaseChunks, hc, hn0, hn1, hn2, hn3, hn4,
      Option.getD_some, List.flatten_cons, List.flatten_nil,
      List.append_nil, List.append_assoc]
    rw [fastScalarField_eq hn00 hn02 hn03, fastScalarField_eq hn10 hn12 hn13,
      fastScalarField_eq hn20 hn22 hn23, fastScalarField_eq hn30 hn32 hn33,
      fastScalarField_eq hn40 hn42 hn43, fastTo_eq hto, fastData_eq]
    simp only [rlpOpt]
  have hflen : tx.fastLength = tx.rlpBaseChunks.flatten.length := by
    have e0 := fastScalarLen_eq hn00 hn01 hn02 hn03
    have e1 := fastScalarLen_eq hn10 hn11 hn12 hn13
    have e2 := fastScalarLen_eq hn20 hn21 hn22 hn23
    have e3 := fastScalarLen_eq hn30 hn31 hn32 hn33
    have e4 := fastScalarLen_eq hn40 hn41 hn42 hn43
    have e5 := fastU64Length_eq hcb
    have e6 := fastToLen_eq hto
    have e7 := fastDataLen_eq hdata
    simp only [Eip1559TransactionRequest.fastLength,
      Eip1559TransactionRequest.rlpBaseChunks, hc, hn0, hn1, hn2, hn3, hn4,
      Option.getD_some, List.flatten_cons, List.flatten_nil,
      List.append_nil, List.length_append]
    simp only [rlpOpt] at e6 e7 ⊢
    omega
  rw [Eip1559TransactionRequest.fastEncode,
    Eip1559TransactionRequest.fastHeaderBytes, if_pos hlen55,
    Eip1559TransactionRequest.rlp, rlpStreamList, encList, hpay, hflen,
    listHeader, if_pos (by omega)]

/-! ### The claims -/

/-- C1: envelope dispatch of `TypedTransaction::decode` (signed.rs).
For a stream whose payload is nonempty: a leading list-header byte
(>= 0xC0) selects the Legacy decoder on the whole stream; otherwise the
first payload byte 0x01 selects the EIP-2930 decoder on the rest of the
payload, 0x02 the EIP-1559 decoder, and any other value fails with the
unsupported-type error. -/
theorem claim_C1 (bs d t : List Nat) (b : Nat)
    (hd : rlpData bs = .ok d) (hfirst : d = b :: t) :
    (0xc0 ≤ bs.headD 0 →
      TypedTransaction.decode bs
        = TypedTransaction.Legacy <$> LegacyTransaction.decode bs) ∧
    (bs.headD 0 < 0xc0 → b = 0x01 →
      TypedTransaction.decode bs
        = TypedTransaction.EIP2930 <$> EIP2930Transaction.decode t) ∧
    (bs.headD 0 < 0xc0 → b = 0x02 →
      TypedTransaction.decode bs
        = TypedTransaction.EIP1559 <$> EIP1559Transaction.decode t) ∧
    (bs.headD 0 < 0xc0 → b ≠ 0x01 → b ≠ 0x02 →
      TypedTransaction.decode bs = .error (.Custom "invalid tx type")) := by
  subst hfirst
  have hne : bs ≠ [] := by
    intro h
    rw [h, show rlpData ([] : List Nat) = .error .RlpIsTooShort from rfl] at hd
    exact Except.noConfusion hd
  refine ⟨?_, ?_, ?_, ?_⟩
  · intro hb
    have hlist : rlpIsList bs = true := by
      cases bs with
      | nil => exact absurd rfl hne
      | cons x r =>
        simp only [List.headD_cons] at hb
        simp [rlpIsList]
        omega
    unfold TypedTransaction.decode
    rw [hd, exceptBind_ok]
    simp only [List.head?_cons]
    rw [if_pos hlist]
  · intro hb h01
    have hlist : ¬ rlpIsList bs = true := by
      cases bs with
      | nil => exact absurd rfl hne
      | cons x r =>
        simp only [List.headD_cons] at hb
        simp [rlpIsList]
        omega
    unfold TypedTransaction.decode
    rw [hd, exceptBind_ok]
    simp only [List.head?_cons]
    rw [if_neg hlist, if_pos h01]
    rfl
  · intro hb h02
    have hlist : ¬ rlpIsList bs = true := by
      cases bs with
      | nil => exact absurd rfl hne
      | cons x r =>
        simp only [List.headD_cons] at hb
        simp [rlpIsList]
        omega
    unfold TypedTransaction.decode
    rw [hd, exceptBind_ok]
    simp only [List.head?_cons]
    rw [if_neg hlist, if_neg (by omega), if_pos h02]
    rfl
  · intro hb h01 h02
    have hlist : ¬ rlpIsList bs = true := by
      cases bs with
      | nil => exact absurd rfl hne
      | cons x r =>
        simp only [List.headD_cons] at hb
        simp [rlpIsList]
        omega
    unfold TypedTransaction.decode
    rw [hd, exceptBind_ok]
    simp only [List.head?_cons]
    rw [if_neg hlist, if_neg h01, if_neg h02]

/-- Witness for C1: the single content byte 0x05 is neither a list nor a
known type discriminant, so decoding fails with the unsupported-type
error. -/
theorem claim_C1_witness :
    TypedTransaction.decode [0x05] = .error (.Custom "invalid tx type") :=
  (claim_C1 [0x05] [0x05] [] 0x05 (by decide) rfl).2.2.2
    (by decide) (by decide) (by decide)

/-- C2: refuted (code bug).  The fastrlp `Eip1559TransactionRequest`
decoder is not panic-free: on the single byte 0xf8 — a long-list header
whose length bytes are missing — the Rust code slices
`&buf[1 + len_of_len..]` without a bounds check and panics; the model
returns the `Panicked` marker on exactly that input. -/
theorem claim_C2 :
    Eip1559TransactionRequest.fastDecode [0xf8]
      = .error (.Panicked "slice start index out of range") := by
  decide

/-- C3: refuted (code bug).  The hand-rolled scalar slice
`uint_container[31 - bits / 8..]` of the fastrlp encoder is not the
minimal big-endian form: the value 0 is emitted as the single byte 0x00
instead of the empty string 0x80, and the value 0x80 (bit length 8) is
emitted with a leading zero byte under header 0x82 instead of
[0x81, 0x80]. -/
theorem claim_C3 :
    fastScalarField 0 = [0x00] ∧
    fastScalarField 0 ≠ encUint 0 ∧
    fastScalarField 0x80 = [0x82, 0x00, 0x80] ∧
    fastScalarField 0x80 ≠ [0x81, 0x80] := by
  decide

/-- C4: refuted (code bug).  For a payload over 55 bytes the fastrlp
encoder writes the big-endian payload length BEFORE the `0xF7 +
length_of_length` marker byte: a default request with 60 bytes of
calldata has encoding length 64 and header bytes [0x40, 0xF8] instead of
[0xF8, 0x40]. -/
theorem claim_C4 :
    ((⟨none, none, none, none, some (List.replicate 60 1), none, [],
        none, none, none⟩ :
      Eip1559TransactionRequest)).fastLength = 64 ∧
    ((⟨none, none, none, none, some (List.replicate 60 1), none, [],
        none, none, none⟩ :
      Eip1559TransactionRequest)).fastHeaderBytes = [0x40, 0xf8] ∧
    ((⟨none, none, none, none, some (List.replicate 60 1), none, [],
        none, none, none⟩ :
      Eip1559TransactionRequest)).fastHeaderBytes
      ≠ (0xf7 + lengthOfLength 64) :: beBytes 64 := by
  decide

/-- C5: the chain id of a legacy transaction is derived from the
signature's v alone: v > 36 gives (v - 35) / 2, and any v of at most 36
gives no chain id. -/
theorem claim_C5 :
    (∀ tx : LegacyTransaction, 36 < tx.signature.v →
      tx.chain_id = some ((tx.signature.v - 35) / 2)) ∧
    (∀ tx : LegacyTransaction, tx.signature.v ≤ 36 →
      tx.chain_id = none) := by
  constructor
  · intro tx h
    rw [LegacyTransaction.chain_id, if_pos (by omega)]
  · intro tx h
    rw [LegacyTransaction.chain_id, if_neg (by omega)]

/-- Witness for C5: v = 37 yields chain id 1, v = 27 yields none. -/
theorem claim_C5_witness :
    (⟨0, 0, 0, TransactionKind.Create, 0, [], ⟨0, 0, 37⟩⟩ :
        LegacyTransaction).chain_id = some 1 ∧
    (⟨0, 0, 0, TransactionKind.Create, 0, [], ⟨0, 0, 27⟩⟩ :
        LegacyTransaction).chain_id = none :=
  ⟨claim_C5.1 _ (by decide), claim_C5.2 _ (by decide)⟩

/-- C6: the hash of a legacy transaction is Keccak-256 of its full
9-item rlp list including the signature fields v, r, s; the hash of a
typed transaction is Keccak-256 of the type byte (0x01 or 0x02)
prepended to the encoded inner list, whose length header covers only the
list payload and never the type byte. -/
theorem claim_C6 (keccak : List Nat → List Nat) (t1 : LegacyTransaction)
    (t2 : EIP2930Transaction) (t3 : EIP1559Transaction) :
    t1.hash keccak
      = keccak (rlpStreamList [encUint t1.nonce, encUint t1.gas_price,
          encUint t1.gas_limit, encKind t1.kind, encUint t1.value,
          encStr t1.input, encUint t1.signature.v, encUint t1.signature.r,
          encUint t1.signature.s]) ∧
    t2.hash keccak
      = keccak (0x01 :: (listHeader t2.rlpItems.flatten.length
          ++ t2.rlpItems.flatten)) ∧
    t3.hash keccak
      = keccak (0x02 :: (listHeader t3.rlpItems.flatten.length
          ++ t3.rlpItems.flatten)) :=
  ⟨rfl, rfl, rfl⟩

/-- Witness for C6 at a concrete legacy transaction and the constant-nil
hash function. -/
theorem claim_C6_witness :
    (⟨0, 0, 0, TransactionKind.Create, 0, [], ⟨0, 0, 0⟩⟩ :
        LegacyTransaction).hash (fun _ => []) = [] :=
  (claim_C6 (fun _ => [])
    ⟨0, 0, 0, TransactionKind.Create, 0, [], ⟨0, 0, 0⟩⟩
    ⟨0, 0, 0, 0, TransactionKind.Create, 0, [], [], false, 0, 0⟩
    ⟨0, 0, 0, 0, 0, TransactionKind.Create, 0, [], [], false, 0, 0⟩).1

/-- Counterexample to C7 as stated: the valid default (all-absent)
unsigned body does not round-trip — `decode_base_rlp` wraps every absent
scalar back as `Some(0)`, so the decoded value differs from the
original. -/
theorem counterexample_C7 :
    Eip1559TransactionRequest.decodeBaseRlp
        Eip1559TransactionRequest.new.rlp
      = .ok (⟨none, none, some 0, some 0, none, some 0, [], some 0,
          some 0, some 0⟩ : Eip1559TransactionRequest) ∧
    Eip1559TransactionRequest.decodeBaseRlp
        Eip1559TransactionRequest.new.rlp
      ≠ .ok Eip1559TransactionRequest.new := by
  decide

/-- C7 (amended): the unsigned fee-market round-trip
decode(encode(body)) = body holds for bodies whose optional scalar
fields are all present (with in-range values), whose recipient is absent
or an address, and whose data is absent or nonempty — but not for bodies
with absent scalars, which come back as Some(0)
(see the counterexample). -/
theorem claim_C7 {tx : Eip1559TransactionRequest}
    (h : Eip1559RequestWF tx) :
    Eip1559TransactionRequest.decodeBaseRlp tx.rlp = .ok tx :=
  decodeBaseRlp_rlp h

/-- Witness for C7 at a concrete well-formed body with every scalar
present. -/
theorem claim_C7_witness :
    Eip1559TransactionRequest.decodeBaseRlp
        (⟨none, none, some 1, some 1, none, some 1, [], some 1, some 1,
            some 1⟩ : Eip1559TransactionRequest).rlp
      = .ok (⟨none, none, some 1, some 1, none, some 1, [], some 1,
          some 1, some 1⟩ : Eip1559TransactionRequest) :=
  claim_C7 ⟨rfl, ⟨1, rfl, by decide⟩, ⟨1, rfl, by decide⟩,
    ⟨1, rfl, by decide⟩, ⟨1, rfl, by decide⟩, ⟨1, rfl, by decide⟩,
    Or.inl rfl, ⟨1, rfl, by decide⟩, Or.inl rfl, by decide, by simp⟩

/-- C8: the signed-request codec round-trips: for every well-formed
(tx, sig) pair, decoding the encoding of
`SignedTransactionRequest { tx, sig }` yields the pair back, for all
three variants; in particular the codec succeeds on well-formed input
rather than failing on every input.  (The codec itself is modelled from
the spec: signed_request.rs declares only the struct.) -/
theorem claim_C8 {req : SignedTransactionRequest}
    (h : SignedRequestWF req) :
    SignedTransactionRequest.decode (SignedTransactionRequest.encode req)
      = .ok req :=
  signedRequest_roundtrip h

/-- Witness for C8 at a concrete signed legacy request. -/
theorem claim_C8_witness :
    SignedTransactionRequest.decode
        (SignedTransactionRequest.encode
          ⟨SpecTypedTransaction.legacy
              ⟨1, 1, 1, TransactionKind.Create, 1, [1]⟩, ⟨1, 1, 27⟩⟩)
      = .ok ⟨SpecTypedTransaction.legacy
              ⟨1, 1, 1, TransactionKind.Create, 1, [1]⟩, ⟨1, 1, 27⟩⟩ :=
  claim_C8 ⟨⟨by decide, by decide, by decide⟩,
    ⟨by decide, by decide, by decide, trivial, by decide, by decide⟩⟩

/-- Counterexample to C9 as stated: in the rlp-crate `TransactionKind`
encoder (signed.rs), `Call` of the all-zero address appends the full
20-byte string (header 0x94 then 20 zero bytes), not the empty string
that `Create` appends — the two do not encode to the same bytes. -/
theorem counterexample_C9 :
    encKind (TransactionKind.Call 0) ≠ encKind TransactionKind.Create ∧
    encKind (TransactionKind.Call 0) = 0x94 :: List.replicate 20 0 := by
  decide

/-- C9 (amended): only the fastrlp `NameOrAddress` encoder (ens.rs)
collapses the zero address to the empty string 0x80 that `Create` also
produces, and decoding the empty string does yield `Create`; the
rlp-crate `TransactionKind` encoder instead writes `Call(0)` as the full
20-byte string (see the counterexample). -/
theorem claim_C9 :
    NameOrAddress.fastEncode (NameOrAddress.Address 0) = [0x80] ∧
    encKind TransactionKind.Create = [0x80] ∧
    TransactionKind.decode [0x80] = .ok TransactionKind.Create ∧
    encKind (TransactionKind.Call 0) ≠ [0x80] := by
  decide

/-- Counterexample to C10 as stated: on the default (all-absent) request
the two unsigned encoders disagree — fastrlp emits [0xC4, 0x01, 0x00,
0x00, 0x00, 0x00, 0x80, 0x00, 0x80, 0xC0] (absent chain id as 1, zero
scalars as 0x00, and a miscounted header), while rlp() emits [0xC9,
0x80 x 8, 0xC0]. -/
theorem counterexample_C10 :
    Eip1559TransactionRequest.fastEncode Eip1559TransactionRequest.new
      ≠ Eip1559TransactionRequest.rlp Eip1559TransactionRequest.new := by
  decide

/-- C10 (amended): the two unsigned encoders agree only on restricted
requests: chain id present, every scalar present, nonzero, different
from 0x7F and of bit length not divisible by 8, recipient absent or a
nonzero address, data absent or short, and total payload at most 55
bytes; on such requests fastrlp and rlp() produce identical bytes (the
counterexample shows they differ already on the default request). -/
theorem claim_C10 {tx : Eip1559TransactionRequest}
    (h : FastRlpAgreeWF tx) :
    tx.fastEncode = tx.rlp :=
  fastEncode_eq_rlp h

/-- Witness for C10 at a concrete request with all scalars 1. -/
theorem claim_C10_witness :
    (⟨none, none, some 1, some 1, none, some 1, [], some 1, some 1,
        some 1⟩ : Eip1559TransactionRequest).fastEncode
      = (⟨none, none, some 1, some 1, none, some 1, [], some 1, some 1,
          some 1⟩ : Eip1559TransactionRequest).rlp :=
  claim_C10 ⟨⟨1, rfl, by decide⟩,
    ⟨1, rfl, by decide, by decide, by decide, by decide⟩,
    ⟨1, rfl, by decide, by decide, by decide, by decide⟩,
    ⟨1, rfl, by decide, by decide, by decide, by decide⟩,
    ⟨1, rfl, by decide, by decide, by decide, by decide⟩,
    Or.inl rfl,
    ⟨1, rfl, by decide, by decide, by decide, by decide⟩,
    Or.inl rfl, by decide⟩

end EthersVerify
